import Mathlib

/-!
File-sharing client and server: header codec, frame transport and dispatch.

A shallow embedding of `src/server/server.cpp` and `src/client/client.cpp`.

* Byte arrays (`QByteArray`) are lists of natural numbers, one per byte.
* A `QString` is represented by its UTF-8 bytes, so `toUtf8` is the identity and
  the separators `,` `:` `;` and newline are the bytes 44, 58, 59 and 10.
  Converting a byte array to a `QString` stops at the first NUL byte and decodes
  UTF-8, every byte that does not start a valid sequence becoming U+FFFD, as the
  Qt 5 constructor `QString(const QByteArray &)` and `QString::fromUtf8` do.
* `QList::operator[]` outside the list is the fault `Fault.indexOutOfRange`;
  `exit(EXIT_FAILURE)` is the fault `Fault.exitFailure`, which keeps what had been
  logged and written to the sockets when the process ended.
* The file system is a map from resolved path to content, with the directories
  and the permissions beside it; sockets are numbers; everything a slot writes to
  a socket or emits as a log signal is appended to a list.
-/

namespace Qt

/-- A `QByteArray`, and also the UTF-8 bytes of a `QString`. -/
abbrev Bytes := List Nat

/-- The bytes of an ASCII string literal of the source. -/
def ascii (s : String) : Bytes := s.toList.map Char.toNat

end Qt

open Qt

/-! ## Log signals -/

/-- The four log signals of both programs. -/
inductive Severity where
  | debug
  | info
  | warning
  | critical
  deriving DecidableEq, Repr

/-- The messages the slots emit, by emit site, with the values they are formatted
from. -/
inductive Message where
  /-- Text "%1 :: Waiting for more data to come.." -/
  | waitingForData (sd : Nat)
  /-- Text "Got wrong flag: %1!" -/
  | wrongFlag (flag : Bytes)
  /-- Text "You are receiving a file from sd:%1 of size: %2 bytes, called %3.." -/
  | receivingFile (sd : Nat) (size fileName : Bytes)
  /-- Text "Trying to safe received file under path %1.." -/
  | tryingToSave (filePath : Bytes)
  /-- Text "File from sd:%1 successfully stored on disk under the path %2" -/
  | fileStored (sd : Nat) (filePath : Bytes)
  /-- Text "An error occurred while trying to save the received file!" -/
  | saveError
  /-- Text "File %1 were added into file with table of saved files" -/
  | addedToTable (fileName : Bytes)
  /-- Text "Can't open file with table of saved files under path %1 to add new saved file
  with name %2" -/
  | cantAppendToTable (path fileName : Bytes)
  /-- Text "Can't open file %1 to read!" -/
  | cantOpenToRead (filePath : Bytes)
  /-- Text "Socket with sd:%1 doesn't seem to be opened!" -/
  | socketNotOpened (sd : Nat)
  /-- Text "socket doesn't seem to be opened!" -/
  | notOpened
  /-- Text "Got file names from client sd:%1:\n%2" -/
  | gotFileNames (sd : Nat) (fileNames : Bytes)
  /-- Text "File with name %1 doesn't exist in the directory %2" -/
  | fileDoesNotExist (fileName dir : Bytes)
  /-- Text "Got table from server with rows:\n%1" -/
  | gotTable (tableData : Bytes)
  deriving DecidableEq, Repr

namespace Qt

/-- What stops a slot before its end. -/
inductive Fault where
  /-- Model of `QList::operator[]` with an index outside the list. -/
  | indexOutOfRange
  /-- Model of `exit(EXIT_FAILURE)`: the process ends; `log` and `sent` are the log
  signals emitted and the arrays written to the sockets up to then. -/
  | exitFailure (log : List (Severity × Message)) (sent : List (Nat × Bytes))
  /-- A read of memory beyond a byte array and its terminating NUL. -/
  | readPastArray
  /-- The model's loop bound was used up (never with the bound `loadFiles` passes). -/
  | outOfFuel
  deriving DecidableEq, Repr

deriving instance DecidableEq for Except

/-- Model of `QList::operator[]`: defined only inside the list. -/
def index {α : Type} (l : List α) (i : Nat) : Except Fault α :=
  match l[i]? with
  | some x => Except.ok x
  | none => Except.error Fault.indexOutOfRange

/-- Model of `QByteArray::mid(pos, len)`, after `QContainerImplHelper::mid`; a negative `len`
means "to the end". -/
def mid (b : Bytes) (pos : Int) (len : Int) : Bytes :=
  if pos > b.length then []
  else if pos < 0 then
    if len < 0 ∨ len + pos ≥ b.length then b
    else if len + pos ≤ 0 then []
    else b.take (len + pos).toNat
  else if len < 0 ∨ len > b.length - pos then b.drop pos.toNat
  else (b.drop pos.toNat).take len.toNat

/-- Model of `QByteArray::mid(pos)`: the one-argument call, `len = -1`. -/
def midFrom (b : Bytes) (pos : Int) : Bytes := mid b pos (-1)

/-- Model of `QByteArray::resize(n)`: cuts a longer array; a shorter one is extended by
uninitialised bytes, here the first values of `junk`. -/
def resize (b : Bytes) (n : Nat) (junk : Nat → Nat) : Bytes :=
  b.take n ++ (List.range (n - b.length)).map junk

/-- A continuation byte of UTF-8: `10xxxxxx`. -/
def isContinuationByte (b : Nat) : Bool := 128 ≤ b && b < 192

/-- Model of `QUtf8Functions::fromUtf8` on a first byte `b ≥ 0x80` and the bytes after
it: the number of bytes of the sequence when it is a valid one (continuation bytes
present, no overlong form, no surrogate, nothing above U+10FFFF), `none` on a
decoding error. -/
def utf8SequenceLength (b : Nat) (rest : Bytes) : Option Nat :=
  if b < 194 then none
  else if b < 224 then
    match rest with
    | c1 :: _ => if isContinuationByte c1 then some 2 else none
    | _ => none
  else if b < 240 then
    match rest with
    | c1 :: c2 :: _ =>
      if isContinuationByte c1 && isContinuationByte c2 then
        let uc := b % 16 * 4096 + c1 % 64 * 64 + c2 % 64
        if uc < 2048 || (55296 ≤ uc && uc < 57344) then none else some 3
      else none
    | _ => none
  else if b < 245 then
    match rest with
    | c1 :: c2 :: c3 :: _ =>
      if isContinuationByte c1 && isContinuationByte c2 && isContinuationByte c3 then
        let uc := b % 8 * 262144 + c1 % 64 * 4096 + c2 % 64 * 64 + c3 % 64
        if uc < 65536 || 1114111 < uc then none else some 4
      else none
    | _ => none
  else none

/-- The loop of `QUtf8::convertToUnicode`, on the UTF-8 bytes of the result: an ASCII
byte and a valid sequence are kept, any other byte becomes U+FFFD (`EF BF BD`) and
decoding goes on with the byte after it. The first argument counts the bytes of a
valid sequence still to be copied. -/
def decodeUtf8Aux : Nat → Bytes → Bytes
  | _, [] => []
  | k + 1, b :: rest => b :: decodeUtf8Aux k rest
  | 0, b :: rest =>
    if b < 128 then b :: decodeUtf8Aux 0 rest
    else
      match utf8SequenceLength b rest with
      | some n => b :: decodeUtf8Aux (n - 1) rest
      | none => 239 :: 191 :: 189 :: decodeUtf8Aux 0 rest

/-- The text a run of bytes decodes to, when it is not at the start of the array. -/
def decodeUtf8 (b : Bytes) : Bytes := decodeUtf8Aux 0 b

/-- Model of `QUtf8::convertToUnicode`: a byte order mark at the very start is skipped,
the rest is decoded. -/
def convertToUnicode (b : Bytes) : Bytes :=
  match b with
  | 239 :: 187 :: 191 :: rest => decodeUtf8 rest
  | _ => decodeUtf8 b

/-- Model of `QString(const QByteArray &)` and `QString::fromUtf8`: the bytes up to the first
NUL, decoded. -/
def fromUtf8 (b : Bytes) : Bytes := convertToUnicode (b.takeWhile (fun c => c != 0))

/-- Model of `QString::split(sep)` for a one-character separator, empty parts kept. -/
def split (sep : Nat) (s : Bytes) : List Bytes := s.splitOn sep

/-- Model of `QChar::digitValue` on an ASCII character. -/
def digitValue (c : Nat) : Option Nat :=
  if 48 ≤ c ∧ c ≤ 57 then some (c - 48) else none

/-- The number of a place marker: one digit and, when it follows, a second digit.
Gives the number and the text after it. -/
def markerNumber (t : Bytes) : Option (Nat × Bytes) :=
  match t with
  | [] => none
  | d :: r =>
    match digitValue d with
    | none => none
    | some v =>
      match r with
      | [] => some (v, [])
      | e :: r2 =>
        match digitValue e with
        | none => some (v, e :: r2)
        | some w => some (10 * v + w, r2)

/-- The text after an optional `L`. -/
def skipLocale (s : Bytes) : Bytes :=
  match s with
  | 76 :: r => r
  | r => r

/-- The place marker read just after a `%`: an optional `L`, one digit and, when it
follows, a second digit. Gives the marker's number and the text after it. -/
def escapeAfterPercent (s : Bytes) : Option (Nat × Bytes) := markerNumber (skipLocale s)

/-- Model of `findArgEscapes`: the lowest place-marker number of a string, scanned with the
fuel `n` (the length of the string is enough). -/
def findArgEscapes : Nat → Bytes → Option Nat
  | 0, _ => none
  | _, [] => none
  | n + 1, c :: cs =>
    if c = 37 then
      match escapeAfterPercent cs with
      | none => findArgEscapes n cs
      | some (k, rest) =>
        match findArgEscapes n rest with
        | none => some k
        | some m => some (min k m)
    else findArgEscapes n cs

/-- Model of `replaceArgEscapes`: every place marker numbered `k` becomes `a`, the rest of the
string is copied. -/
def replaceArgEscapes (k : Nat) (a : Bytes) : Nat → Bytes → Bytes
  | 0, s => s
  | _, [] => []
  | n + 1, c :: cs =>
    if c = 37 then
      match escapeAfterPercent cs with
      | none => c :: replaceArgEscapes k a n cs
      | some (j, rest) =>
        if j = k then a ++ replaceArgEscapes k a n rest
        else (c :: cs.take (cs.length - rest.length)) ++ replaceArgEscapes k a n rest
    else c :: replaceArgEscapes k a n cs

/-- Model of `QString::arg(a)`: replaces the place markers with the lowest number by `a`; a
string without a marker is returned as it is. -/
def arg (s a : Bytes) : Bytes :=
  match findArgEscapes s.length s with
  | none => s
  | some k => replaceArgEscapes k a s.length s

/-- Decimal digits of a number, most significant first, with fuel. -/
def decimalAux : Nat → Nat → Bytes → Bytes
  | 0, _, acc => acc
  | fuel + 1, n, acc =>
    if n / 10 = 0 then (48 + n % 10) :: acc
    else decimalAux fuel (n / 10) ((48 + n % 10) :: acc)

/-- The text `QString::arg(qint64)` inserts for a size (sizes are not negative). -/
def decimal (n : Nat) : Bytes := decimalAux (n + 1) n []

/-- A number in decimal, filled up with leading zeros to `width` digits. -/
def padded (width n : Nat) : Bytes :=
  List.replicate (width - (decimal n).length) 48 ++ decimal n

/-- A `QDateTime`: a date and a time of day. -/
structure DateTime where
  day : Nat
  month : Nat
  year : Nat
  hour : Nat
  minute : Nat
  second : Nat
  msec : Nat
  deriving DecidableEq, Repr

/-- Model of `QDateTime::toString("dd.MM.yyyy/hh:mm:ss.zzz")`. -/
def DateTime.format (t : DateTime) : Bytes :=
  padded 2 t.day ++ [46] ++ padded 2 t.month ++ [46] ++ padded 4 t.year ++ [47] ++
    padded 2 t.hour ++ [58] ++ padded 2 t.minute ++ [58] ++ padded 2 t.second ++ [46] ++
    padded 3 t.msec

/-- The components of a path as the file system resolves them: an empty component and
`.` are passed over, `..` leaves the directory entered last. The components kept so
far are in `acc`, the last one first. -/
def resolveComponents : List Bytes → List Bytes → List Bytes
  | [], acc => acc.reverse
  | c :: cs, acc =>
    if c = [] ∨ c = [46] then resolveComponents cs acc
    else if c = [46, 46] then resolveComponents cs acc.tail
    else resolveComponents cs (c :: acc)

/-- The file an absolute path names: the path without `.`, `..` and doubled `/`. Two
paths name the same file exactly when they resolve to the same. -/
def canonicalPath (path : Bytes) : Bytes :=
  ((resolveComponents (split 47 path) []).map (fun c => 47 :: c)).flatten

end Qt

/-- The template of every header of the protocol. -/
def headerTemplate : Bytes := ascii "flag:%1,fileName:%2,fileSize:%3;"

/-- The text `QString("flag:%1,fileName:%2,fileSize:%3;").arg(flag).arg(fileName).arg(size)`
of `Client::on_saveButton_clicked`, `Server::sendTableToClient` and
`Server::sendFileToClient`. -/
def headerText (flag fileName : Bytes) (size : Nat) : Bytes :=
  arg (arg (arg headerTemplate flag) fileName) (decimal size)

/-- The header the senders build: `header.prepend(text.toUtf8()); header.resize(128)`. -/
def buildHeader (flag fileName : Bytes) (size : Nat) (junk : Nat → Nat) : Bytes :=
  resize (headerText flag fileName size) 128 junk

/-- Receiver side: `QString header = buffer.mid(0,128)`. -/
def headerOf (buffer : Bytes) : Bytes := fromUtf8 (mid buffer 0 128)

/-- Receiver side: `header.split(",")[0].split(":")[1]`. -/
def decodeFlag (header : Bytes) : Except Fault Bytes := do
  let field ← index (split 44 header) 0
  index (split 58 field) 1

/-- Receiver side: `header.split(",")[1].split(":")[1]`. -/
def decodeFileName (header : Bytes) : Except Fault Bytes := do
  let field ← index (split 44 header) 1
  index (split 58 field) 1

/-- Receiver side: `header.split(",")[2].split(":")[1].split(";")[0]`. -/
def decodeSize (header : Bytes) : Except Fault Bytes := do
  let field ← index (split 44 header) 2
  let value ← index (split 58 field) 1
  index (split 59 value) 0

/-- The three fields a receiver reads from the first 128 bytes of a frame body. -/
def decodeHeader (buffer : Bytes) : Except Fault (Bytes × Bytes × Bytes) := do
  let flag ← decodeFlag (headerOf buffer)
  let fileName ← decodeFileName (headerOf buffer)
  let size ← decodeSize (headerOf buffer)
  pure (flag, fileName, size)

/-! ## Frame transport: `QDataStream` and byte arrays -/

namespace Qt

/-- The four bytes `QDataStream` writes for a `quint32`, big-endian. -/
def encodeUInt32 (n : Nat) : Bytes :=
  [n / 2 ^ 24 % 256, n / 2 ^ 16 % 256, n / 2 ^ 8 % 256, n % 256]

/-- The `quint32` `QDataStream` reads from four bytes. -/
def decodeUInt32 (b : Bytes) : Nat :=
  match b with
  | [b0, b1, b2, b3] => ((b0 * 256 + b1) * 256 + b2) * 256 + b3
  | _ => 0

/-- Model of `socketStream << byteArray` for a non-null array: its length, then its bytes. -/
def writeByteArray (byteArray : Bytes) : Bytes :=
  encodeUInt32 (byteArray.length % 2 ^ 32) ++ byteArray

/-- Model of `startTransaction(); socketStream >> buffer; commitTransaction()` on the bytes
`dev` waiting in the socket: `none` when the transaction is rolled back (nothing
consumed), otherwise the array read and the bytes left in the socket. -/
def readByteArray (dev : Bytes) : Option (Bytes × Bytes) :=
  if dev.length < 4 then none
  else
    let len := decodeUInt32 (dev.take 4)
    if len = 0xFFFFFFFF then some ([], dev.drop 4)
    else if (dev.drop 4).length < len then none
    else some ((dev.drop 4).take len, (dev.drop 4).drop len)

/-- Model of `QChar::isSpace` on an ASCII character. -/
def isSpace (c : Nat) : Bool := c == 32 || (9 ≤ c && c ≤ 13)

/-- The value of a non-empty run of ASCII digits. -/
def digitsValue : Bytes → Nat → Option Nat
  | [], _ => none
  | [c], acc => (digitValue c).map (fun d => 10 * acc + d)
  | c :: d :: r, acc =>
    match digitValue c with
    | none => none
    | some v => digitsValue (d :: r) (10 * acc + v)

/-- Model of `QString::toInt()`: surrounding white space, an optional sign and decimal digits;
`0` when the text is not a number or does not fit a 32-bit `int`. -/
def toInt (s : Bytes) : Int :=
  let t := ((s.dropWhile isSpace).reverse.dropWhile isSpace).reverse
  match t with
  | 45 :: ds =>
    match digitsValue ds 0 with
    | some v => if v ≤ 2 ^ 31 then -(v : Int) else 0
    | none => 0
  | 43 :: ds =>
    match digitsValue ds 0 with
    | some v => if v < 2 ^ 31 then (v : Int) else 0
    | none => 0
  | ds =>
    match digitsValue ds 0 with
    | some v => if v < 2 ^ 31 then (v : Int) else 0
    | none => 0

/-- Model of `QFileInfo::fileName()`: the part of a path after its last `/`. -/
def fileNameOfPath (path : Bytes) : Bytes := ((split 47 path).getLast?).getD []

/-- Model of `QIODevice::write(const char *data, qint64 maxSize)` called with the data pointer
of `buffer`: the bytes handed to the file. A negative `maxSize` is refused (nothing
is written); `buffer.data()[buffer.size()]` is the NUL that ends every byte array;
anything further is outside the array. -/
def writeData (buffer : Bytes) (maxSize : Int) : Except Fault Bytes :=
  if maxSize < 0 then Except.ok []
  else if maxSize.toNat ≤ buffer.length then Except.ok (buffer.take maxSize.toNat)
  else if maxSize.toNat = buffer.length + 1 then Except.ok (buffer ++ [0])
  else Except.error Fault.readPastArray

end Qt
/-! ## The server (`src/server/server.cpp`) -/

/-- The members of `Server` and what surrounds it: the registered sockets, the file
system, the bytes waiting in each socket, and the record of what was written to the
sockets and emitted as log signals. -/
structure Server where
  /-- The member `connection_set`, in the order a range-for visits it. -/
  connection_set : List Nat
  /-- Answer of `socket->isOpen()`. -/
  isOpen : Nat → Bool
  /-- Answer of `QCoreApplication::applicationDirPath()`. -/
  applicationDirPath : Bytes
  /-- The regular files on disk, by resolved path: the content, `none` when no
  regular file is there. -/
  content : Bytes → Option Bytes
  /-- The directories on disk, by resolved path. -/
  isDir : Bytes → Bool
  /-- Whether the file at a resolved path may be opened for reading. -/
  canRead : Bytes → Bool
  /-- Whether `QFile::open` for writing or appending succeeds at a resolved path. -/
  canWrite : Bytes → Bool
  /-- Bytes received on a socket and not yet consumed by `readSocket`. -/
  pending : Nat → Bytes
  /-- Every byte array written with `socketStream << byteArray`, oldest first, with
  the socket it was written to. -/
  sent : List (Nat × Bytes)
  /-- Every log signal emitted, oldest first. -/
  log : List (Severity × Message)

namespace Server

/-- The member `dirOfSavedFiles`, as the constructor sets it:
`QCoreApplication::applicationDirPath()+"/SavedFilesOnServer"`. -/
def dirOfSavedFiles (st : Server) : Bytes := st.applicationDirPath ++ ascii "/SavedFilesOnServer"

/-- The member `pathToTableFile`, as the constructor sets it:
`QCoreApplication::applicationDirPath()+"/TableFile.txt"`. -/
def pathToTableFile (st : Server) : Bytes := st.applicationDirPath ++ ascii "/TableFile.txt"

/-- Emitting one of `newDebugMessage`, `newInfoMessage`, `newWarningMessage`,
`newCriticalMessage`. -/
def emit (st : Server) (sev : Severity) (msg : Message) : Server :=
  { st with log := st.log ++ [(sev, msg)] }

/-- Model of `socketStream << byteArray` on the stream of `socket`. -/
def send (st : Server) (socket : Nat) (byteArray : Bytes) : Server :=
  { st with sent := st.sent ++ [(socket, byteArray)] }

/-- Model of `QFileInfo::exists()`: a regular file or a directory is at the path. -/
def fileExists (st : Server) (path : Bytes) : Bool :=
  (st.content (canonicalPath path)).isSome || st.isDir (canonicalPath path)

/-- Model of `QFile::open(QIODevice::ReadOnly)` followed by `readAll()`: the content of the
regular file at the path when it may be read, `none` when the open fails. -/
def openReadOnly (st : Server) (path : Bytes) : Option Bytes :=
  if st.canRead (canonicalPath path) then st.content (canonicalPath path) else none

/-- Whether `QFile::open(QIODevice::WriteOnly)` and `QFile::open(QFile::Append)` succeed at
the path. -/
def openForWriting (st : Server) (path : Bytes) : Bool := st.canWrite (canonicalPath path)

/-- The effect of a successful `QFile::open(QIODevice::WriteOnly)`: the file is
created or cut to length zero. -/
def truncateFile (st : Server) (path : Bytes) : Server :=
  { st with content := fun q => if q = canonicalPath path then some [] else st.content q }

/-- The bytes of a `QFile` opened with `WriteOnly` reaching the disk: `data` is put at
the start of the file as it is by then. -/
def writeAtStart (st : Server) (path data : Bytes) : Server :=
  { st with content := fun q =>
      if q = canonicalPath path then
        some (data ++ ((st.content (canonicalPath path)).getD []).drop data.length)
      else st.content q }

/-- Model of `QFile::open(QFile::Append)` followed by writing `data` and `close()`: the
file, created when absent, is extended by `data`. -/
def appendFile (st : Server) (path data : Bytes) : Server :=
  { st with content := fun q =>
      if q = canonicalPath path then some ((st.content (canonicalPath path)).getD [] ++ data)
      else st.content q }

/-- The local `filePath` of `saveFileOnServer` and `sendFileToClient`:
`dirOfSavedFiles + "/" + fileName`. -/
def filePath (st : Server) (fileName : Bytes) : Bytes :=
  st.dirOfSavedFiles ++ ascii "/" ++ fileName

/-- Model of `QFile::size()`: the length of the file, `0` when there is none. -/
def fileSize (st : Server) (path : Bytes) : Nat :=
  ((st.content (canonicalPath path)).getD []).length

/-- Model of `Server::appendToSocketList`: `connection_set.insert(socket)`. -/
def appendToSocketList (st : Server) (socket : Nat) : Server :=
  if socket ∈ st.connection_set then st
  else { st with connection_set := st.connection_set ++ [socket] }

/-- Model of `Server::discardSocket`: `connection_set.remove(socket)`. -/
def discardSocket (st : Server) (socket : Nat) : Server :=
  { st with connection_set := st.connection_set.filter (fun s => s != socket) }

/-- Model of `Server::getTable`: the whole table file; when it cannot be opened for
reading, the critical message and `exit(EXIT_FAILURE)`. -/
def getTable (st : Server) : Except Fault Bytes :=
  match st.openReadOnly st.pathToTableFile with
  | some byteArray => Except.ok byteArray
  | none =>
    Except.error (Fault.exitFailure
      (st.log ++ [(Severity.critical, Message.cantOpenToRead st.pathToTableFile)]) st.sent)

/-- Model of `Server::sendTableToClient`. The uninitialised bytes of the header being built
are `junk` at the number of arrays written so far. -/
def sendTableToClient (st : Server) (socket : Nat) (junk : Nat → Nat → Nat) :
    Except Fault Server := do
  let fileName := fileNameOfPath st.pathToTableFile
  let header := buildHeader (ascii "upd") fileName (st.fileSize st.pathToTableFile)
    (junk st.sent.length)
  let byteArray ← st.getTable
  pure (st.send socket (header ++ byteArray))

/-- The loop of `Server::sendTableToClients`, over the sockets still to visit. The
registry holds sockets taken from `nextPendingConnection` under
`hasPendingConnections`, never a null pointer, so the test `if (socket)` holds. -/
def sendTableToSockets (junk : Nat → Nat → Nat) : List Nat → Server → Except Fault Server
  | [], st => Except.ok st
  | socket :: rest, st =>
    if st.isOpen socket then
      match sendTableToClient st socket junk with
      | Except.ok st1 => sendTableToSockets junk rest st1
      | Except.error e => Except.error e
    else
      sendTableToSockets junk rest (st.emit Severity.critical (Message.socketNotOpened socket))

/-- Model of `Server::sendTableToClients`: the broadcast over `connection_set`. -/
def sendTableToClients (st : Server) (junk : Nat → Nat → Nat) : Except Fault Server :=
  sendTableToSockets junk st.connection_set st

/-- The record `QString("%1,%2,%3\n").arg(dateTime).arg(fileName).arg(link)` with
`link = QString("file:///%1/%2").arg(dirOfSavedFiles).arg(fileName)`. -/
def tableRecord (dateTime fileName dirOfSavedFiles : Bytes) : Bytes :=
  let link := arg (arg (ascii "file:///%1/%2") dirOfSavedFiles) fileName
  arg (arg (arg (ascii "%1,%2,%3\n") dateTime) fileName) link

/-- Model of `Server::appendSavedFileToTable`. -/
def appendSavedFileToTable (st : Server) (dateTime fileName : Bytes)
    (junk : Nat → Nat → Nat) : Except Fault Server :=
  let st1 :=
    if st.openForWriting st.pathToTableFile then
      (st.appendFile st.pathToTableFile
        (tableRecord dateTime fileName st.dirOfSavedFiles)).emit
        Severity.info (Message.addedToTable fileName)
    else
      st.emit Severity.warning (Message.cantAppendToTable st.pathToTableFile fileName)
  sendTableToClients st1 junk

/-- The size of the write buffer of a `QFile`, `QFILE_WRITEBUFFER_SIZE`. -/
def writeBufferSize : Nat := 16384

/-- What `file.write(buffer)` hands to the disk at once: all of a buffer larger than the
write buffer of the `QFile`, nothing of a smaller one. -/
def writtenAtOnce (buffer : Bytes) : Bytes :=
  if writeBufferSize < buffer.length then buffer else []

/-- What `file.write(buffer)` leaves in the write buffer of the `QFile`: a buffer that is
not larger than it. -/
def leftInWriteBuffer (buffer : Bytes) : Bytes :=
  if writeBufferSize < buffer.length then [] else buffer

/-- Model of `Server::saveFileOnServer`, at the time `now`. Opening the file cuts it to
length zero. `file.write(buffer)` hands a buffer larger than the write buffer of the
`QFile` to the disk at once; a smaller one stays in the write buffer and reaches the
disk when `file` is destroyed at the end of the function, after the table was
appended to and broadcast, and never when the process has exited before. -/
def saveFileOnServer (st : Server) (socket : Nat) (header buffer : Bytes) (now : DateTime)
    (junk : Nat → Nat → Nat) : Except Fault Server := do
  let fileName ← decodeFileName header
  let size ← decodeSize header
  let st1 := st.emit Severity.info (Message.receivingFile socket size fileName)
  let filePath := st.filePath fileName
  let st2 := st1.emit Severity.debug (Message.tryingToSave filePath)
  if st2.openForWriting filePath then
    let st3 := st2.truncateFile filePath
    let st4 := st3.writeAtStart filePath (writtenAtOnce buffer)
    let dateTime := now.format
    let st5 := st4.emit Severity.info (Message.fileStored socket filePath)
    let st6 ← appendSavedFileToTable st5 dateTime fileName junk
    pure (st6.writeAtStart filePath (leftInWriteBuffer buffer))
  else
    pure (st2.emit Severity.warning Message.saveError)

/-- Model of `Server::sendFileToClient`, on the stream of `socket`. -/
def sendFileToClient (st : Server) (socket : Nat) (fileName : Bytes)
    (junk : Nat → Nat → Nat) : Server :=
  let filePath := st.filePath fileName
  let st1 :=
    if st.fileExists filePath then st
    else st.emit Severity.warning (Message.fileDoesNotExist fileName st.dirOfSavedFiles)
  match st1.openReadOnly filePath with
  | some data =>
    let header := buildHeader (ascii "load") fileName data.length (junk st1.sent.length)
    st1.send socket (header ++ data)
  | none => st1.emit Severity.warning (Message.cantOpenToRead filePath)

/-- Model of `Server::sendFilesToClient`. The socket is the sender of `readyRead`, not a
null pointer, so the test `if (socket)` holds. -/
def sendFilesToClient (st : Server) (socket : Nat) (buffer : Bytes)
    (junk : Nat → Nat → Nat) : Server :=
  if st.isOpen socket then
    let fileNames := fromUtf8 buffer
    let st1 := st.emit Severity.debug (Message.gotFileNames socket fileNames)
    let listOfFiles := (split 10 fileNames).filter (fun name => name != [])
    listOfFiles.foldl (fun s fileName => sendFileToClient s socket fileName junk) st1
  else
    st.emit Severity.critical Message.notOpened

/-- Bytes arriving on `socket`: they queue behind the bytes still pending there; the
`readyRead` that follows runs `readSocket`. -/
def receive (st : Server) (socket : Nat) (read : Bytes) : Server :=
  { st with pending := fun s => if s = socket then st.pending socket ++ read else st.pending s }

/-- Model of `Server::readSocket` from line 109 on: what is done, at the time `now`, with a
byte array `buffer` that the transaction has delivered from `socket`. -/
def dispatch (st : Server) (socket : Nat) (buffer : Bytes) (now : DateTime)
    (junk : Nat → Nat → Nat) : Except Fault Server := do
  let header := headerOf buffer
  let flag ← decodeFlag header
  let buffer := midFrom buffer 128
  if flag = ascii "save" then
    saveFileOnServer st socket header buffer now junk
  else if flag = ascii "upd" then
    sendTableToClient st socket junk
  else if flag = ascii "load" then
    pure (sendFilesToClient st socket buffer junk)
  else
    pure (st.emit Severity.warning (Message.wrongFlag flag))

/-- Model of `Server::readSocket`, run for `socket` on one `readyRead`: one transaction, and
the dispatch of the array it delivers. -/
def readSocket (st : Server) (socket : Nat) (now : DateTime)
    (junk : Nat → Nat → Nat) : Except Fault Server :=
  match readByteArray (st.pending socket) with
  | none => Except.ok (st.emit Severity.info (Message.waitingForData socket))
  | some (buffer, rest) =>
    dispatch { st with pending := fun s => if s = socket then rest else st.pending s }
      socket buffer now junk

end Server

/-- One `readyRead` on a connection: the bytes `read` arrive behind the bytes still
`pending`, and `readSocket` runs its single transaction. Gives the bytes left in the
socket and the array handed to the dispatch, if any. -/
def onReadyRead (pending read : Bytes) : Bytes × Option Bytes :=
  match readByteArray (pending ++ read) with
  | none => (pending ++ read, none)
  | some (buffer, rest) => (rest, some buffer)

/-- A sequence of reads on one connection, `readSocket` invoked once per read: the
arrays dispatched, in order, and the bytes left in the socket. -/
def feedReads : Bytes → List Bytes → List Bytes × Bytes
  | pending, [] => ([], pending)
  | pending, read :: reads =>
    match onReadyRead pending read with
    | (rest, none) => feedReads rest reads
    | (rest, some buffer) =>
      let r := feedReads rest reads
      (buffer :: r.1, r.2)

/-! ## The client (`src/client/client.cpp`) -/

/-- The members of `Client` and what surrounds it: the download directory, the file
system, the rows of the table widget, and the record of what was written to the
socket and emitted as log signals. -/
structure Client where
  /-- The socket descriptor. -/
  socket : Nat
  /-- The member `loadDir`. -/
  loadDir : Bytes
  /-- The files on disk: the content at a path, `none` when no file is there. -/
  content : Bytes → Option Bytes
  /-- Whether `QFile::open(QIODevice::WriteOnly)` succeeds at a path. -/
  canWrite : Bytes → Bool
  /-- The rows of `ui->tableWidget`: date and time, file name, link. -/
  rows : List (Bytes × Bytes × Bytes)
  /-- Every byte array written with `socketStream << byteArray`, oldest first. -/
  sent : List Bytes
  /-- Every log signal emitted, oldest first. -/
  log : List (Severity × Message)

namespace Client

/-- Emitting one of the four log signals. -/
def emit (st : Client) (sev : Severity) (msg : Message) : Client :=
  { st with log := st.log ++ [(sev, msg)] }

/-- Model of `QFile::open(QIODevice::WriteOnly)` followed by a write of `data`. -/
def writeFile (st : Client) (path data : Bytes) : Client :=
  { st with content := fun q => if q = path then some data else st.content q }

/-- The local `filePath` of `loadFiles`: `loadDir + "/" + fileName`. -/
def filePath (st : Client) (fileName : Bytes) : Bytes :=
  st.loadDir ++ ascii "/" ++ fileName

/-- Model of `Client::requestTable`: the header written to the socket. -/
def requestTable (st : Client) (junk : Nat → Nat) : Client :=
  { st with sent := st.sent ++
      [resize (arg (ascii "flag:%1,fileName:null,fileSize:null;") (ascii "upd")) 128 junk] }

/-- Model of `Client::on_loadButton_clicked` once a directory is chosen: the request written
to the socket for the selected file names (each followed by a newline). -/
def on_loadButton_clicked (st : Client) (dirPath selectedFileNames : Bytes) (junk : Nat → Nat) :
    Client :=
  { st with
    loadDir := dirPath
    sent := st.sent ++
      [resize (arg (ascii "flag:%1,fileName:null,fileSize:null;") (ascii "load")) 128 junk
        ++ selectedFileNames] }

/-- Model of `Client::insertRowInTable`. -/
def insertRowInTable (st : Client) (dateTime fileName link : Bytes) : Client :=
  { st with rows := st.rows ++ [(dateTime, fileName, link)] }

/-- The loop of `Client::updateTable` over the rows still to visit. -/
def fillTable : List Bytes → Client → Except Fault Client
  | [], st => Except.ok st
  | row :: listOfRows, st =>
    if row = [] then fillTable listOfRows st
    else
      match index (split 44 row) 0, index (split 44 row) 1, index (split 44 row) 2 with
      | Except.ok dateTime, Except.ok fileName, Except.ok link =>
        fillTable listOfRows (st.insertRowInTable dateTime fileName link)
      | _, _, _ => Except.error Fault.indexOutOfRange

/-- Model of `Client::updateTable`. -/
def updateTable (st : Client) (tableData : Bytes) : Except Fault Client :=
  fillTable (split 10 tableData) { st with rows := [] }

/-- The `while (!buffer.isEmpty())` loop of `Client::loadFiles`, at most `fuel`
iterations. -/
def loadLoop : Nat → Client → Bytes → Bytes → Except Fault Client
  | _, st, _, [] => Except.ok st
  | 0, _, _, _ :: _ => Except.error Fault.outOfFuel
  | fuel + 1, st, header, c :: cs => do
    let buffer := c :: cs
    let fileName ← decodeFileName header
    let size ← decodeSize header
    let st1 := st.emit Severity.debug (Message.receivingFile st.socket size fileName)
    let filePath := st.filePath fileName
    let st2 := st1.emit Severity.debug (Message.tryingToSave filePath)
    let st3 ←
      if st2.canWrite filePath then do
        let data ← writeData buffer (toInt size)
        pure ((st2.writeFile filePath data).emit Severity.debug
          (Message.fileStored st.socket filePath))
      else
        pure (st2.emit Severity.debug Message.saveError)
    let buffer := midFrom buffer (toInt size)
    let header := fromUtf8 (mid buffer 0 128)
    let buffer := midFrom buffer 128
    loadLoop fuel st3 header buffer

/-- Model of `Client::loadFiles`. The loop drops at least one byte of a non-empty buffer in
each iteration, so the length of the buffer bounds the number of iterations. -/
def loadFiles (st : Client) (header buffer : Bytes) : Except Fault Client := do
  let flag ← decodeFlag header
  if flag = ascii "load" then
    loadLoop buffer.length st header buffer
  else
    pure (st.emit Severity.warning (Message.wrongFlag flag))

/-- Model of `Client::readSocket` from line 170 on: what is done with a byte array `buffer`
that the transaction has delivered. -/
def dispatch (st : Client) (buffer : Bytes) : Except Fault Client := do
  let header := headerOf buffer
  let flag ← decodeFlag header
  let buffer := midFrom buffer 128
  if flag = ascii "upd" then
    let tableData := fromUtf8 buffer
    updateTable (st.emit Severity.debug (Message.gotTable tableData)) tableData
  else if flag = ascii "load" then
    loadFiles st header buffer
  else
    pure (st.emit Severity.warning (Message.wrongFlag flag))

end Client

/-! ## The notions the statements below use -/

/-- The text the specification gives for a header:
`flag:<flag>,fileName:<name>,fileSize:<size>;`. -/
def renderedText (flag fileName size : Bytes) : Bytes :=
  ascii "flag:" ++ flag ++ ascii ",fileName:" ++ fileName ++ ascii ",fileSize:" ++ size
    ++ ascii ";"

/-- The text the specification gives for a record of the table file:
`<timestamp>,<fileName>,file:///<uploadDir>/<fileName>`. -/
def recordText (dateTime fileName dirOfSavedFiles : Bytes) : Bytes :=
  dateTime ++ ascii "," ++ fileName ++ ascii ",file:///" ++ dirOfSavedFiles ++ ascii "/"
    ++ fileName

/-- Every place marker of the text (`%`, an optional `L`, one or two digits) has a
number above `m`. Such markers are left alone by a `QString::arg` that fills in a
marker numbered `m` or less. -/
def markersAbove (m : Nat) (s : Bytes) : Bool :=
  match findArgEscapes s.length s with
  | none => true
  | some k => decide (m < k)

/-- The bytes are UTF-8 text, as the bytes of every `QString` are: decoding changes
nothing. -/
def IsUtf8Text (b : Bytes) : Prop := decodeUtf8 b = b

instance (b : Bytes) : Decidable (IsUtf8Text b) :=
  inferInstanceAs (Decidable (decodeUtf8 b = b))

/-- The bytes a sequence of arrays written with `socketStream << byteArray` puts on
the connection. -/
def wireBytes (frames : List Bytes) : Bytes := (frames.map writeByteArray).flatten

/-- The positions in the byte stream, counted from `offset`, at which the frames
end. -/
def frameEnds : Nat → List Bytes → List Nat
  | _, [] => []
  | offset, f :: fs => (offset + 4 + f.length) :: frameEnds (offset + 4 + f.length) fs

/-- No read holds the end of more than one frame: each read covers the positions
after `pos` up to `pos + read.length`, and at most one of `ends` lies there. -/
def AtMostOneEndPerRead (ends : List Nat) : Nat → List Bytes → Prop
  | _, [] => True
  | pos, read :: reads =>
    (ends.filter (fun e => pos < e ∧ e ≤ pos + read.length)).length ≤ 1 ∧
      AtMostOneEndPerRead ends (pos + read.length) reads

/-- Requests handled one after the other by the server process: each is the socket
it came from, the array the transaction delivered and the time. Once a slot has
stopped the process, nothing further is handled. -/
def Server.serve (junk : Nat → Nat → Nat) (requests : List (Nat × Bytes × DateTime))
    (st : Server) : Except Fault Server :=
  requests.foldlM
    (fun s request => Server.dispatch s request.1 request.2.1 request.2.2 junk) st

/-- One pass through the body of the loop of `Client::loadFiles`, for the header and
the buffer at its start: the client after it, and the header and the buffer the next
test of the loop sees. -/
def Client.loadStep (st : Client) (header buffer : Bytes) :
    Except Fault (Client × Bytes × Bytes) := do
  let fileName ← decodeFileName header
  let size ← decodeSize header
  let st1 := st.emit Severity.debug (Message.receivingFile st.socket size fileName)
  let filePath := st.filePath fileName
  let st2 := st1.emit Severity.debug (Message.tryingToSave filePath)
  let st3 ←
    if st2.canWrite filePath then do
      let data ← writeData buffer (toInt size)
      pure ((st2.writeFile filePath data).emit Severity.debug
        (Message.fileStored st.socket filePath))
    else
      pure (st2.emit Severity.debug Message.saveError)
  let buffer := midFrom buffer (toInt size)
  let header := fromUtf8 (mid buffer 0 128)
  let buffer := midFrom buffer 128
  pure (st3, header, buffer)

/-! ## Concrete data for the instances below -/

/-- A server in `/srv` with three registered, open sockets, an empty table file, an
empty upload directory and every path readable and writable. -/
def exampleServer : Server where
  connection_set := [1, 2, 3]
  isOpen := fun _ => true
  applicationDirPath := ascii "/srv"
  content := fun q => if q = ascii "/srv/TableFile.txt" then some [] else none
  isDir := fun q => q = ascii "/srv" || q = ascii "/srv/SavedFilesOnServer"
  canRead := fun _ => true
  canWrite := fun _ => true
  pending := fun _ => []
  sent := []
  log := []

/-- The server above after `a.txt` with content `abc` has been stored. -/
def exampleServerWithFile : Server :=
  { exampleServer with
    content := fun q =>
      if q = ascii "/srv/TableFile.txt" then
        some (ascii "01.11.2026/12:00:00.000,a.txt,file:////srv/SavedFilesOnServer/a.txt\n")
      else if q = ascii "/srv/SavedFilesOnServer/a.txt" then some (ascii "abc")
      else none }

/-- A server whose table file may be appended to but not read. -/
def exampleServerWriteOnlyTable : Server :=
  { exampleServer with canRead := fun q => q != ascii "/srv/TableFile.txt" }

/-- A server whose table file is gone and cannot be created. -/
def exampleServerNoTable : Server :=
  { exampleServer with
    content := fun _ => none
    canWrite := fun q => q != ascii "/srv/TableFile.txt" }

/-- A client that downloads into `/home/u/Documents`, where nothing is stored yet. -/
def exampleClient : Client where
  socket := 5
  loadDir := ascii "/home/u/Documents"
  content := fun _ => none
  canWrite := fun _ => true
  rows := []
  sent := []
  log := []

/-- The Update request as `Client::requestTable` builds it, the uninitialised bytes
being zero. -/
def exampleUpdateRequest : Bytes :=
  resize (arg (ascii "flag:%1,fileName:null,fileSize:null;") (ascii "upd")) 128 (fun _ => 0)

/-- The first of November 2026, noon. -/
def exampleTime : DateTime where
  day := 1
  month := 11
  year := 2026
  hour := 12
  minute := 0
  second := 0
  msec := 0

/-- The header a client builds to save `x.txt` of three bytes, the uninitialised
bytes being zero. -/
def exampleSaveHeader : Bytes := buildHeader (ascii "save") (ascii "x.txt") 3 (fun _ => 0)

/-! ## Lemmas on the Qt primitives -/

namespace Qt

theorem index_eq_ok {α : Type} {l : List α} {i : Nat} {x : α} (h : l[i]? = some x) :
    index l i = Except.ok x := by
  simp [index, h]

theorem splitOn_head (sep : Nat) (s : Bytes) :
    (s.splitOn sep)[0]? = some (s.takeWhile (fun c => c != sep)) := by
  induction s with
  | nil => simp [List.splitOn, List.splitOnP_nil]
  | cons x xs ih =>
    simp only [List.splitOn] at ih ⊢
    rw [List.splitOnP_cons, List.takeWhile_cons]
    by_cases hx : x = sep
    · simp [hx]
    · have hne : (x == sep) = false := by simpa using hx
      have hne2 : (x != sep) = true := by simpa using hx
      rw [hne, hne2]
      cases hsp : List.splitOnP (fun c => c == sep) xs with
      | nil => exact absurd hsp (List.splitOnP_ne_nil _ _)
      | cons a as =>
        rw [hsp] at ih
        simp only [List.getElem?_cons_zero, Option.some.injEq] at ih
        simp [List.modifyHead, ih]

theorem splitOn_append_sep (sep : Nat) (p r : Bytes) (h : sep ∉ p) :
    (p ++ sep :: r).splitOn sep = p :: r.splitOn sep := by
  simp only [List.splitOn]
  apply List.splitOnP_first
  · intro x hx hxs
    have : x = sep := by simpa using hxs
    exact h (this ▸ hx)
  · simp

theorem takeWhile_ne_append (sep : Nat) (p r : Bytes) (h : sep ∉ p) :
    (p ++ r).takeWhile (fun c => c != sep) = p ++ r.takeWhile (fun c => c != sep) := by
  apply List.takeWhile_append_of_pos
  intro a ha
  have : a ≠ sep := fun e => h (e ▸ ha)
  simpa using this

theorem takeWhile_ne_self (sep : Nat) (p : Bytes) (h : sep ∉ p) :
    p.takeWhile (fun c => c != sep) = p := by
  rw [List.takeWhile_eq_self_iff]
  intro a ha
  have : a ≠ sep := fun e => h (e ▸ ha)
  simpa using this

theorem takeWhile_ne_append_sep (sep : Nat) (p r : Bytes) (h : sep ∉ p) :
    (p ++ sep :: r).takeWhile (fun c => c != sep) = p := by
  rw [takeWhile_ne_append sep p _ h]
  simp

theorem index_split_zero (sep : Nat) (s : Bytes) :
    index (split sep s) 0 = Except.ok (s.takeWhile (fun c => c != sep)) :=
  index_eq_ok (splitOn_head sep s)

theorem index_split_one (sep : Nat) (p r : Bytes) (h : sep ∉ p) :
    index (split sep (p ++ sep :: r)) 1 = Except.ok (r.takeWhile (fun c => c != sep)) := by
  apply index_eq_ok
  rw [split, splitOn_append_sep sep p r h]
  simpa using splitOn_head sep r

theorem index_split_two (sep : Nat) (p q r : Bytes) (hp : sep ∉ p) (hq : sep ∉ q) :
    index (split sep (p ++ sep :: (q ++ sep :: r))) 2 =
      Except.ok (r.takeWhile (fun c => c != sep)) := by
  apply index_eq_ok
  rw [split, splitOn_append_sep sep p _ hp, splitOn_append_sep sep q _ hq]
  simpa using splitOn_head sep r

theorem index_split_one_of_two (sep : Nat) (p q r : Bytes) (hp : sep ∉ p) (hq : sep ∉ q) :
    index (split sep (p ++ sep :: (q ++ sep :: r))) 1 = Except.ok q := by
  rw [index_split_one sep p _ hp, takeWhile_ne_append_sep sep q r hq]

end Qt

/-! ## Lemmas on the header codec -/

theorem renderedText_shape (flag fileName size J : Bytes) :
    renderedText flag fileName size ++ J =
      (ascii "flag" ++ 58 :: flag) ++ 44 :: ((ascii "fileName" ++ 58 :: fileName) ++ 44 ::
        (ascii "fileSize" ++ 58 :: (size ++ 59 :: J))) := by
  have h1 : ascii "flag:" = ascii "flag" ++ [58] := by decide
  have h2 : ascii ",fileName:" = 44 :: (ascii "fileName" ++ [58]) := by decide
  have h3 : ascii ",fileSize:" = 44 :: (ascii "fileSize" ++ [58]) := by decide
  have h4 : ascii ";" = [59] := by decide
  simp only [renderedText, h1, h2, h3, h4, List.append_assoc, List.cons_append,
    List.nil_append, List.singleton_append]

theorem not_mem_key_append {sep : Nat} {key v : Bytes} (hk : sep ∉ key) (hs : sep ≠ 58)
    (hv : sep ∉ v) : sep ∉ key ++ 58 :: v := by
  simp only [List.mem_append, List.mem_cons, not_or]
  exact ⟨hk, hs, hv⟩

/-- Decoding a header string that starts with a rendered text whose fields are free
of the separators, whatever follows the terminating `;`. -/
theorem decode_renderedText (flag fileName size J : Bytes)
    (hf1 : 44 ∉ flag) (hf2 : 58 ∉ flag) (hn1 : 44 ∉ fileName) (hn2 : 58 ∉ fileName)
    (hs1 : 44 ∉ size) (hs2 : 58 ∉ size) (hs3 : 59 ∉ size) :
    decodeFlag (renderedText flag fileName size ++ J) = Except.ok flag ∧
    decodeFileName (renderedText flag fileName size ++ J) = Except.ok fileName ∧
    decodeSize (renderedText flag fileName size ++ J) = Except.ok size := by
  have kA : (44 : Nat) ∉ ascii "flag" ++ 58 :: flag :=
    not_mem_key_append (by decide) (by decide) hf1
  have kB : (44 : Nat) ∉ ascii "fileName" ++ 58 :: fileName :=
    not_mem_key_append (by decide) (by decide) hn1
  have k1 : (58 : Nat) ∉ ascii "flag" := by decide
  have k2 : (58 : Nat) ∉ ascii "fileName" := by decide
  have k3 : (58 : Nat) ∉ ascii "fileSize" := by decide
  rw [renderedText_shape]
  refine ⟨?_, ?_, ?_⟩
  · simp only [decodeFlag, bind, Except.bind]
    rw [index_split_zero, takeWhile_ne_append_sep 44 _ _ kA]
    simp only []
    rw [index_split_one 58 _ _ k1, takeWhile_ne_self 58 _ hf2]
  · simp only [decodeFileName, bind, Except.bind]
    rw [index_split_one_of_two 44 _ _ _ kA kB]
    simp only []
    rw [index_split_one 58 _ _ k2, takeWhile_ne_self 58 _ hn2]
  · simp only [decodeSize, bind, Except.bind]
    have kC : (44 : Nat) ∉ ascii "fileSize" ++ 58 :: (size ++ [59]) := by
      apply not_mem_key_append (by decide) (by decide)
      simp only [List.mem_append, List.mem_singleton, not_or]
      exact ⟨hs1, by decide⟩
    have e : ∀ K : Bytes, ascii "fileSize" ++ 58 :: (size ++ 59 :: K) =
        (ascii "fileSize" ++ 58 :: (size ++ [59])) ++ K := by
      intro K; simp
    rw [index_split_two 44 _ _ _ kA kB, e J, takeWhile_ne_append 44 _ J kC, ← e]
    simp only []
    rw [index_split_one 58 _ _ k3]
    simp only []
    rw [index_split_zero, takeWhile_ne_append 58 size _ hs2, List.takeWhile_cons]
    simp only [show ((59 : Nat) != 58) = true by decide, if_true]
    rw [takeWhile_ne_append_sep 59 size _ hs3]

namespace Qt

theorem findArgEscapes_skip (p s : Bytes) (n : Nat) (h : 37 ∉ p) :
    findArgEscapes (p.length + n) (p ++ s) = findArgEscapes n s := by
  induction p with
  | nil => simp
  | cons c p ih =>
    have hc : c ≠ 37 := fun e => h (e ▸ List.mem_cons_self _ _)
    have hp : 37 ∉ p := fun e => h (List.mem_cons_of_mem _ e)
    have e : (c :: p).length + n = (p.length + n) + 1 := by
      simp only [List.length_cons]; omega
    rw [e, List.cons_append, findArgEscapes, if_neg hc, ih hp]

theorem replaceArgEscapes_skip (k : Nat) (a p s : Bytes) (n : Nat) (h : 37 ∉ p) :
    replaceArgEscapes k a (p.length + n) (p ++ s) = p ++ replaceArgEscapes k a n s := by
  induction p with
  | nil => simp
  | cons c p ih =>
    have hc : c ≠ 37 := fun e => h (e ▸ List.mem_cons_self _ _)
    have hp : 37 ∉ p := fun e => h (List.mem_cons_of_mem _ e)
    have e : (c :: p).length + n = (p.length + n) + 1 := by
      simp only [List.length_cons]; omega
    rw [e, List.cons_append, replaceArgEscapes, if_neg hc, ih hp, List.cons_append]

/-- The function `arg` leaves a prefix without `%` alone. -/
theorem arg_skip (p s a : Bytes) (h : 37 ∉ p) : arg (p ++ s) a = p ++ arg s a := by
  unfold arg
  rw [List.length_append, findArgEscapes_skip p s _ h]
  cases findArgEscapes s.length s with
  | none => rfl
  | some k => exact replaceArgEscapes_skip k a p s _ h

theorem decimalAux_digits (fuel n : Nat) (acc : Bytes) :
    ∀ c ∈ decimalAux fuel n acc, c ∈ acc ∨ (48 ≤ c ∧ c ≤ 57) := by
  induction fuel generalizing n acc with
  | zero => intro c hc; exact Or.inl hc
  | succ fuel ih =>
    intro c hc
    have hd : 48 ≤ 48 + n % 10 ∧ 48 + n % 10 ≤ 57 := by omega
    rw [decimalAux] at hc
    split at hc
    · rcases List.mem_cons.mp hc with h | h
      · exact Or.inr (h ▸ hd)
      · exact Or.inl h
    · rcases ih _ _ c hc with h | h
      · rcases List.mem_cons.mp h with h | h
        · exact Or.inr (h ▸ hd)
        · exact Or.inl h
      · exact Or.inr h

/-- The decimal text of a size consists of ASCII digits. -/
theorem decimal_digits (n : Nat) : ∀ c ∈ decimal n, 48 ≤ c ∧ c ≤ 57 := by
  intro c hc
  rcases decimalAux_digits _ _ _ c hc with h | h
  · exact absurd h (List.not_mem_nil _)
  · exact h

theorem decimal_not_mem (n c : Nat) (h : c < 48 ∨ 57 < c) : c ∉ decimal n := by
  intro hc
  have := decimal_digits n c hc
  omega

theorem resize_of_le (b : Bytes) (n : Nat) (junk : Nat → Nat) (h : b.length ≤ n) :
    resize b n junk = b ++ (List.range (n - b.length)).map junk := by
  rw [resize, List.take_of_length_le h]

theorem length_resize (b : Bytes) (n : Nat) (junk : Nat → Nat) :
    (resize b n junk).length = n := by
  simp only [resize, List.length_append, List.length_take, List.length_map, List.length_range]
  omega

theorem mid_zero_of_length (h p : Bytes) (n : Nat) (hl : h.length = n) :
    mid (h ++ p) 0 n = h := by
  have h1 : ¬ ((0 : Int) > ((h ++ p).length : Int)) := by omega
  have h2 : ¬ ((n : Int) < 0 ∨ (n : Int) > ((h ++ p).length : Int) - 0) := by
    simp only [List.length_append]; omega
  simp only [mid, h1, h2, if_false, lt_self_iff_false, Int.toNat_zero, List.drop_zero,
    Int.toNat_ofNat]
  rw [← hl, List.take_left]

theorem midFrom_of_length (h p : Bytes) (n : Nat) (hl : h.length = n) :
    midFrom (h ++ p) n = p := by
  have h1 : ¬ ((n : Int) > ((h ++ p).length : Int)) := by
    simp only [List.length_append]; omega
  have h2 : ¬ ((n : Int) < 0) := by omega
  simp only [midFrom, mid, h1, h2, if_false, Int.reduceNeg, Int.reduceLT, true_or, if_true,
    Int.toNat_ofNat]
  rw [← hl, List.drop_left]

theorem mid_header (h p : Bytes) (hl : h.length = 128) : mid (h ++ p) 0 128 = h := by
  have := mid_zero_of_length h p 128 hl
  simpa using this

theorem midFrom_header (h p : Bytes) (hl : h.length = 128) : midFrom (h ++ p) 128 = p := by
  have := midFrom_of_length h p 128 hl
  simpa using this

end Qt

namespace Qt

/-! ## Lemmas on the UTF-8 decoder -/

theorem decodeUtf8Aux_skip (k : Nat) (l : Bytes) :
    decodeUtf8Aux k l = l.take k ++ decodeUtf8Aux 0 (l.drop k) := by
  induction l generalizing k with
  | nil => cases k <;> simp [decodeUtf8Aux]
  | cons b rest ih =>
    cases k with
    | zero => simp
    | succ k => simp [decodeUtf8Aux, ih k]

theorem decodeUtf8_nil : decodeUtf8 [] = [] := rfl

theorem decodeUtf8_cons_ascii (b : Nat) (rest : Bytes) (h : b < 128) :
    decodeUtf8 (b :: rest) = b :: decodeUtf8 rest := by
  simp [decodeUtf8, decodeUtf8Aux, h]

theorem decodeUtf8_cons_valid (b n : Nat) (rest : Bytes) (h : ¬ b < 128)
    (hn : utf8SequenceLength b rest = some n) :
    decodeUtf8 (b :: rest) = b :: (rest.take (n - 1) ++ decodeUtf8 (rest.drop (n - 1))) := by
  simp only [decodeUtf8, decodeUtf8Aux, h, if_false, hn]
  rw [decodeUtf8Aux_skip]

theorem decodeUtf8_cons_invalid (b : Nat) (rest : Bytes) (h : ¬ b < 128)
    (hn : utf8SequenceLength b rest = none) :
    decodeUtf8 (b :: rest) = 239 :: 191 :: 189 :: decodeUtf8 rest := by
  simp only [decodeUtf8, decodeUtf8Aux, h, if_false, hn]

theorem utf8SequenceLength_bound (b n : Nat) (rest : Bytes)
    (h : utf8SequenceLength b rest = some n) : 2 ≤ n ∧ n - 1 ≤ rest.length := by
  unfold utf8SequenceLength at h
  split at h
  · cases h
  · split at h
    · rcases rest with _ | ⟨c1, r⟩
      · cases h
      · simp only [] at h
        split at h
        · cases h; simp
        · cases h
    · split at h
      · rcases rest with _ | ⟨c1, _ | ⟨c2, r⟩⟩
        · cases h
        · cases h
        · simp only [] at h
          split at h
          · split at h
            · cases h
            · cases h; simp
          · cases h
      · split at h
        · rcases rest with _ | ⟨c1, _ | ⟨c2, _ | ⟨c3, r⟩⟩⟩
          · cases h
          · cases h
          · cases h
          · simp only [] at h
            split at h
            · split at h
              · cases h
              · cases h; simp
            · cases h
        · cases h

theorem isContinuationByte_ascii (c : Nat) (h : c < 128) : isContinuationByte c = false := by
  simp [isContinuationByte]; omega

/-- An ASCII byte ends whatever sequence is being decoded: the bytes after it do not
change how the bytes before it are read. -/
theorem utf8SequenceLength_append_ascii (b c : Nat) (rest y : Bytes) (h : c < 128) :
    utf8SequenceLength b (rest ++ c :: y) = utf8SequenceLength b rest := by
  have hc := isContinuationByte_ascii c h
  unfold utf8SequenceLength
  rcases rest with _ | ⟨c1, _ | ⟨c2, _ | ⟨c3, r⟩⟩⟩
  · rcases y with _ | ⟨y1, _ | ⟨y2, y⟩⟩ <;> simp [hc]
  · rcases y with _ | ⟨y1, y⟩ <;> simp [hc]
  · simp [hc]
  · simp

theorem decodeUtf8_sync_aux (n : Nat) : ∀ (x : Bytes), x.length ≤ n → ∀ (c : Nat) (y : Bytes),
    c < 128 → decodeUtf8 (x ++ c :: y) = decodeUtf8 x ++ c :: decodeUtf8 y := by
  induction n with
  | zero =>
    intro x hx c y hc
    have : x = [] := List.length_eq_zero.mp (by omega)
    subst this
    simp [decodeUtf8_cons_ascii c y hc, decodeUtf8_nil]
  | succ n ih =>
    intro x hx c y hc
    rcases x with _ | ⟨b, rest⟩
    · simp [decodeUtf8_cons_ascii c y hc, decodeUtf8_nil]
    · have hr : rest.length ≤ n := by simpa using hx
      rw [List.cons_append]
      by_cases hb : b < 128
      · rw [decodeUtf8_cons_ascii b _ hb, decodeUtf8_cons_ascii b _ hb, ih rest hr c y hc]
        rfl
      · cases hs : utf8SequenceLength b rest with
        | none =>
          rw [decodeUtf8_cons_invalid b _ hb
            ((utf8SequenceLength_append_ascii b c rest y hc).trans hs),
            decodeUtf8_cons_invalid b _ hb hs, ih rest hr c y hc]
          rfl
        | some k =>
          have hk := utf8SequenceLength_bound b k rest hs
          rw [decodeUtf8_cons_valid b k _ hb
            ((utf8SequenceLength_append_ascii b c rest y hc).trans hs),
            decodeUtf8_cons_valid b k _ hb hs, List.take_append_of_le_length hk.2,
            List.drop_append_of_le_length hk.2,
            ih (rest.drop (k - 1)) (by rw [List.length_drop]; omega) c y hc]
          simp

/-- Decoding goes through an ASCII byte: what is before it and what is after it are
decoded apart. -/
theorem decodeUtf8_sync (x : Bytes) (c : Nat) (y : Bytes) (hc : c < 128) :
    decodeUtf8 (x ++ c :: y) = decodeUtf8 x ++ c :: decodeUtf8 y :=
  decodeUtf8_sync_aux x.length x (le_refl _) c y hc

theorem decodeUtf8_ascii_append (p r : Bytes) (h : ∀ c ∈ p, c < 128) :
    decodeUtf8 (p ++ r) = p ++ decodeUtf8 r := by
  induction p with
  | nil => rfl
  | cons c p ih =>
    rw [List.cons_append, decodeUtf8_cons_ascii c _ (h c (List.mem_cons_self _ _)),
      ih (fun d hd => h d (List.mem_cons_of_mem _ hd))]
    rfl

theorem decodeUtf8_ascii (p : Bytes) (h : ∀ c ∈ p, c < 128) : decodeUtf8 p = p := by
  have := decodeUtf8_ascii_append p [] h
  simpa [decodeUtf8_nil] using this

theorem mem_decodeUtf8_aux (n : Nat) : ∀ (x : Bytes), x.length ≤ n → ∀ (c : Nat),
    c < 128 → c ∈ decodeUtf8 x → c ∈ x := by
  induction n with
  | zero =>
    intro x hx c hc hm
    have : x = [] := List.length_eq_zero.mp (by omega)
    subst this
    simp [decodeUtf8_nil] at hm
  | succ n ih =>
    intro x hx c hc hm
    rcases x with _ | ⟨b, rest⟩
    · simp [decodeUtf8_nil] at hm
    · have hr : rest.length ≤ n := by simpa using hx
      by_cases hb : b < 128
      · rw [decodeUtf8_cons_ascii b _ hb] at hm
        rcases List.mem_cons.mp hm with h | h
        · exact h ▸ List.mem_cons_self _ _
        · exact List.mem_cons_of_mem _ (ih rest hr c hc h)
      · cases hs : utf8SequenceLength b rest with
        | none =>
          rw [decodeUtf8_cons_invalid b _ hb hs] at hm
          simp only [List.mem_cons] at hm
          rcases hm with h | h | h | h
          · omega
          · omega
          · omega
          · exact List.mem_cons_of_mem _ (ih rest hr c hc h)
        | some k =>
          rw [decodeUtf8_cons_valid b k _ hb hs] at hm
          rcases List.mem_cons.mp hm with h | h
          · exact h ▸ List.mem_cons_self _ _
          · rcases List.mem_append.mp h with h | h
            · exact List.mem_cons_of_mem _ (List.mem_of_mem_take h)
            · exact List.mem_cons_of_mem _ (List.mem_of_mem_drop
                (ih (rest.drop (k - 1)) (by rw [List.length_drop]; omega) c hc h))

/-- Decoding brings in no ASCII byte. -/
theorem mem_decodeUtf8 (x : Bytes) (c : Nat) (hc : c < 128) (hm : c ∈ decodeUtf8 x) :
    c ∈ x :=
  mem_decodeUtf8_aux x.length x (le_refl _) c hc hm

theorem not_mem_decodeUtf8 (x : Bytes) (c : Nat) (hc : c < 128) (hm : c ∉ x) :
    c ∉ decodeUtf8 x :=
  fun h => hm (mem_decodeUtf8 x c hc h)

/-- A text that starts with an ASCII byte has no byte order mark to skip. -/
theorem convertToUnicode_cons_ascii (b : Nat) (rest : Bytes) (h : b < 128) :
    convertToUnicode (b :: rest) = decodeUtf8 (b :: rest) := by
  unfold convertToUnicode
  split
  · rename_i heq
    simp only [List.cons.injEq] at heq
    omega
  · rfl

theorem convertToUnicode_nil : convertToUnicode [] = [] := rfl

end Qt

namespace Qt

/-! ## Lemmas on `QString::arg` -/

theorem markerNumber_suffix (t : Bytes) (k : Nat) (rest : Bytes)
    (h : markerNumber t = some (k, rest)) : ∃ pre, t = pre ++ rest ∧ pre ≠ [] := by
  rcases t with _ | ⟨d, _ | ⟨e, r2⟩⟩
  · simp [markerNumber] at h
  · cases hd : digitValue d with
    | none => simp [markerNumber, hd] at h
    | some v =>
      simp only [markerNumber, hd, Option.some.injEq, Prod.mk.injEq] at h
      exact ⟨[d], by simp [h.2.symm], by simp⟩
  · cases hd : digitValue d with
    | none => simp [markerNumber, hd] at h
    | some v =>
      cases he : digitValue e with
      | none =>
        simp only [markerNumber, hd, he, Option.some.injEq, Prod.mk.injEq] at h
        exact ⟨[d], by simp [h.2.symm], by simp⟩
      | some w =>
        simp only [markerNumber, hd, he, Option.some.injEq, Prod.mk.injEq] at h
        exact ⟨[d, e], by simp [h.2.symm], by simp⟩

theorem skipLocale_suffix (s : Bytes) : ∃ pre, s = pre ++ skipLocale s := by
  unfold skipLocale
  split
  · exact ⟨[76], rfl⟩
  · exact ⟨[], rfl⟩

theorem escapeAfterPercent_suffix (cs : Bytes) (k : Nat) (rest : Bytes)
    (h : escapeAfterPercent cs = some (k, rest)) :
    ∃ pre, cs = pre ++ rest ∧ pre ≠ [] := by
  obtain ⟨pre1, h1, hne⟩ := markerNumber_suffix _ k rest h
  obtain ⟨pre0, h0⟩ := skipLocale_suffix cs
  refine ⟨pre0 ++ pre1, ?_, by simp [hne]⟩
  rw [List.append_assoc, ← h1, ← h0]

theorem escapeAfterPercent_length (cs : Bytes) (k : Nat) (rest : Bytes)
    (h : escapeAfterPercent cs = some (k, rest)) : rest.length < cs.length := by
  obtain ⟨pre, hp, hne⟩ := escapeAfterPercent_suffix cs k rest h
  have : 0 < pre.length := List.length_pos.mpr hne
  rw [hp, List.length_append]
  omega

theorem escapeAfterPercent_take (cs : Bytes) (k : Nat) (rest : Bytes)
    (h : escapeAfterPercent cs = some (k, rest)) :
    cs.take (cs.length - rest.length) ++ rest = cs := by
  obtain ⟨pre, hp, -⟩ := escapeAfterPercent_suffix cs k rest h
  subst hp
  simp

theorem markerNumber_append (t : Bytes) (c : Nat) (y : Bytes) (hc : digitValue c = none) :
    markerNumber (t ++ c :: y) =
      (markerNumber t).map (fun p => (p.1, p.2 ++ c :: y)) := by
  rcases t with _ | ⟨d, _ | ⟨e, r2⟩⟩
  · simp [markerNumber, hc]
  · cases hd : digitValue d with
    | none => simp [markerNumber, hd]
    | some v => simp [markerNumber, hd, hc]
  · cases hd : digitValue d with
    | none => simp [markerNumber, hd]
    | some v =>
      cases he : digitValue e with
      | none => simp [markerNumber, hd, he]
      | some w => simp [markerNumber, hd, he]

theorem skipLocale_append (s : Bytes) (c : Nat) (y : Bytes) (hc : c ≠ 76) :
    skipLocale (s ++ c :: y) = skipLocale s ++ c :: y := by
  rcases s with _ | ⟨x, xs⟩
  · simp only [List.nil_append]
    unfold skipLocale
    split
    · rename_i r heq
      simp only [List.cons.injEq] at heq
      exact absurd heq.1 hc
    · rfl
  · by_cases hx : x = 76
    · subst hx
      rfl
    · have e1 : skipLocale (x :: xs ++ c :: y) = x :: xs ++ c :: y := by
        unfold skipLocale
        split
        · rename_i r heq
          simp only [List.cons_append, List.cons.injEq] at heq
          exact absurd heq.1 hx
        · rfl
      have e2 : skipLocale (x :: xs) = x :: xs := by
        unfold skipLocale
        split
        · rename_i r heq
          simp only [List.cons.injEq] at heq
          exact absurd heq.1 hx
        · rfl
      rw [e1, e2]

/-- A character that is neither `L` nor a digit ends the place marker before it. -/
theorem escapeAfterPercent_append (cs : Bytes) (c : Nat) (y : Bytes) (hL : c ≠ 76)
    (hc : digitValue c = none) :
    escapeAfterPercent (cs ++ c :: y) =
      (escapeAfterPercent cs).map (fun p => (p.1, p.2 ++ c :: y)) := by
  rw [escapeAfterPercent, escapeAfterPercent, skipLocale_append cs c y hL,
    markerNumber_append _ c y hc]

/-- More fuel than the length of the text changes nothing. -/
theorem findArgEscapes_fuel (n : Nat) : ∀ (m : Nat) (s : Bytes), s.length ≤ n → s.length ≤ m →
    findArgEscapes n s = findArgEscapes m s := by
  induction n with
  | zero =>
    intro m s hn hm
    have : s = [] := List.length_eq_zero.mp (by omega)
    subst this
    cases m <;> rfl
  | succ n ih =>
    intro m s hn hm
    rcases s with _ | ⟨c, cs⟩
    · cases m <;> rfl
    · obtain ⟨m, rfl⟩ : ∃ m', m = m' + 1 := ⟨m - 1, by simp at hm; omega⟩
      have hn' : cs.length ≤ n := by simpa using hn
      have hm' : cs.length ≤ m := by simpa using hm
      simp only [findArgEscapes]
      by_cases h37 : c = 37
      · simp only [h37, if_true]
        cases he : escapeAfterPercent cs with
        | none => exact ih m cs hn' hm'
        | some p =>
          obtain ⟨k, rest⟩ := p
          have hl := escapeAfterPercent_length cs k rest he
          simp only []
          rw [ih m rest (by omega) (by omega)]
      · simp only [h37, if_false]
        exact ih m cs hn' hm'

theorem replaceArgEscapes_fuel (k : Nat) (a : Bytes) (n : Nat) : ∀ (m : Nat) (s : Bytes),
    s.length ≤ n → s.length ≤ m → replaceArgEscapes k a n s = replaceArgEscapes k a m s := by
  induction n with
  | zero =>
    intro m s hn hm
    have : s = [] := List.length_eq_zero.mp (by omega)
    subst this
    cases m <;> rfl
  | succ n ih =>
    intro m s hn hm
    rcases s with _ | ⟨c, cs⟩
    · cases m <;> rfl
    · obtain ⟨m, rfl⟩ : ∃ m', m = m' + 1 := ⟨m - 1, by simp at hm; omega⟩
      have hn' : cs.length ≤ n := by simpa using hn
      have hm' : cs.length ≤ m := by simpa using hm
      simp only [replaceArgEscapes]
      by_cases h37 : c = 37
      · simp only [h37, if_true]
        cases he : escapeAfterPercent cs with
        | none => rw [ih m cs hn' hm']
        | some p =>
          obtain ⟨j, rest⟩ := p
          have hl := escapeAfterPercent_length cs j rest he
          simp only []
          rw [ih m rest (by omega) (by omega)]
      · simp only [h37, if_false]
        rw [ih m cs hn' hm']

end Qt

namespace Qt

theorem findArgEscapes_cons_other (c : Nat) (cs : Bytes) (h : c ≠ 37) :
    findArgEscapes (c :: cs).length (c :: cs) = findArgEscapes cs.length cs := by
  simp only [List.length_cons, findArgEscapes, h, if_false]

theorem findArgEscapes_cons_none (cs : Bytes) (h : escapeAfterPercent cs = none) :
    findArgEscapes (37 :: cs).length (37 :: cs) = findArgEscapes cs.length cs := by
  simp only [List.length_cons, findArgEscapes, h, if_true]

theorem findArgEscapes_cons_some (cs : Bytes) (k : Nat) (rest : Bytes)
    (h : escapeAfterPercent cs = some (k, rest)) :
    findArgEscapes (37 :: cs).length (37 :: cs) =
      match findArgEscapes rest.length rest with
      | none => some k
      | some m => some (min k m) := by
  have hl := escapeAfterPercent_length cs k rest h
  simp only [List.length_cons, findArgEscapes, h, if_true]
  rw [findArgEscapes_fuel cs.length rest.length rest (by omega) (le_refl _)]

theorem replaceArgEscapes_cons_other (k : Nat) (a : Bytes) (c : Nat) (cs : Bytes)
    (h : c ≠ 37) :
    replaceArgEscapes k a (c :: cs).length (c :: cs) =
      c :: replaceArgEscapes k a cs.length cs := by
  simp only [List.length_cons, replaceArgEscapes, h, if_false]

theorem replaceArgEscapes_cons_none (k : Nat) (a : Bytes) (cs : Bytes)
    (h : escapeAfterPercent cs = none) :
    replaceArgEscapes k a (37 :: cs).length (37 :: cs) =
      37 :: replaceArgEscapes k a cs.length cs := by
  simp only [List.length_cons, replaceArgEscapes, h, if_true]

theorem replaceArgEscapes_cons_some (k : Nat) (a : Bytes) (cs : Bytes) (j : Nat)
    (rest : Bytes) (h : escapeAfterPercent cs = some (j, rest)) :
    replaceArgEscapes k a (37 :: cs).length (37 :: cs) =
      if j = k then a ++ replaceArgEscapes k a rest.length rest
      else (37 :: cs.take (cs.length - rest.length)) ++
        replaceArgEscapes k a rest.length rest := by
  have hl := escapeAfterPercent_length cs j rest h
  simp only [List.length_cons, replaceArgEscapes, h, if_true]
  rw [replaceArgEscapes_fuel k a cs.length rest.length rest (by omega) (le_refl _)]

/-- A text `s` all of whose place markers are numbered above `k`, in front of a
character that is neither `L` nor a digit: the lowest marker of the whole is
that of the rest when that is `k`, and filling in the markers numbered `k` leaves
`s` alone. -/
theorem arg_markers_aux (k : Nat) (a : Bytes) (c : Nat) (t : Bytes)
    (hL : c ≠ 76) (hc : digitValue c = none)
    (hlow : findArgEscapes (c :: t).length (c :: t) = some k) (N : Nat) :
    ∀ s : Bytes, s.length ≤ N →
      (∀ j, findArgEscapes s.length s = some j → k < j) →
      findArgEscapes (s ++ c :: t).length (s ++ c :: t) = some k ∧
      replaceArgEscapes k a (s ++ c :: t).length (s ++ c :: t) =
        s ++ replaceArgEscapes k a (c :: t).length (c :: t) := by
  induction N with
  | zero =>
    intro s hs _
    have : s = [] := List.length_eq_zero.mp (by omega)
    subst this
    exact ⟨hlow, rfl⟩
  | succ N ih =>
    intro s hs hj
    rcases s with _ | ⟨x, xs⟩
    · exact ⟨hlow, rfl⟩
    · have hxs : xs.length ≤ N := by simpa using hs
      rw [List.cons_append]
      by_cases hx : x = 37
      · subst hx
        cases he : escapeAfterPercent xs with
        | none =>
          have he2 : escapeAfterPercent (xs ++ c :: t) = none := by
            rw [escapeAfterPercent_append xs c t hL hc, he]; rfl
          have hj2 : ∀ j, findArgEscapes xs.length xs = some j → k < j := by
            intro j h
            exact hj j (by rw [findArgEscapes_cons_none xs he]; exact h)
          obtain ⟨i1, i2⟩ := ih xs hxs hj2
          rw [findArgEscapes_cons_none _ he2, replaceArgEscapes_cons_none k a _ he2, i1, i2]
          exact ⟨rfl, rfl⟩
        | some p =>
          obtain ⟨j, rest⟩ := p
          have he2 : escapeAfterPercent (xs ++ c :: t) = some (j, rest ++ c :: t) := by
            rw [escapeAfterPercent_append xs c t hL hc, he]; rfl
          have hl := escapeAfterPercent_length xs j rest he
          have hfind := findArgEscapes_cons_some xs j rest he
          have hkj : k < j := by
            cases hr : findArgEscapes rest.length rest with
            | none => rw [hr] at hfind; exact hj j hfind
            | some m =>
              rw [hr] at hfind
              have := hj _ hfind
              omega
          have hj2 : ∀ j', findArgEscapes rest.length rest = some j' → k < j' := by
            intro j' hr
            rw [hr] at hfind
            have := hj _ hfind
            omega
          obtain ⟨i1, i2⟩ := ih rest (by omega) hj2
          rw [findArgEscapes_cons_some _ j _ he2, replaceArgEscapes_cons_some k a _ j _ he2,
            i1, i2]
          refine ⟨?_, ?_⟩
          · simp only [Option.some.injEq]
            omega
          · have hne : ¬ j = k := by omega
            have htake : (xs ++ c :: t).take ((xs ++ c :: t).length - (rest ++ c :: t).length)
                = xs.take (xs.length - rest.length) := by
              have e : (xs ++ c :: t).length - (rest ++ c :: t).length =
                  xs.length - rest.length := by
                simp only [List.length_append, List.length_cons]; omega
              rw [e, List.take_append_of_le_length (by omega)]
            rw [if_neg hne, htake, ← List.append_assoc, List.cons_append,
              escapeAfterPercent_take xs j rest he]
      · have hj2 : ∀ j, findArgEscapes xs.length xs = some j → k < j := by
          intro j h
          exact hj j (by rw [findArgEscapes_cons_other x xs hx]; exact h)
        obtain ⟨i1, i2⟩ := ih xs hxs hj2
        rw [findArgEscapes_cons_other x _ hx, replaceArgEscapes_cons_other k a x _ hx, i1, i2]
        exact ⟨rfl, rfl⟩

/-- The function `arg` leaves alone a text whose place markers are all numbered above
the lowest marker of what follows it. -/
theorem arg_markers (s : Bytes) (c : Nat) (t a : Bytes) (k : Nat)
    (hL : c ≠ 76) (hc : digitValue c = none)
    (hlow : findArgEscapes (c :: t).length (c :: t) = some k)
    (hs : ∀ j, findArgEscapes s.length s = some j → k < j) :
    arg (s ++ c :: t) a = s ++ arg (c :: t) a := by
  obtain ⟨i1, i2⟩ := arg_markers_aux k a c t hL hc hlow s.length s (le_refl _) hs
  unfold arg
  rw [i1, hlow]
  exact i2

end Qt

theorem markersAbove_iff (m : Nat) (s : Bytes) :
    markersAbove m s = true ↔ ∀ j, findArgEscapes s.length s = some j → m < j := by
  unfold markersAbove
  cases h : findArgEscapes s.length s with
  | none => simp
  | some k => simp

theorem markersAbove_mono (m k : Nat) (s : Bytes) (h : markersAbove m s = true) (hk : k ≤ m) :
    ∀ j, findArgEscapes s.length s = some j → k < j := by
  intro j hj
  have := (markersAbove_iff m s).mp h j hj
  omega

/-! ## Lemmas on the header codec, continued -/

/-- With a flag free of `%` and a file name whose place markers are all numbered
above 3, the `arg` chain of the senders gives the text of the specification. -/
theorem headerText_eq (flag fileName : Bytes) (size : Nat)
    (hf : 37 ∉ flag) (hn : markersAbove 3 fileName = true) :
    headerText flag fileName size = renderedText flag fileName (decimal size) := by
  have e1 : arg headerTemplate flag
      = (ascii "flag:" ++ flag ++ ascii ",fileName:") ++ ascii "%2,fileSize:%3;" := by
    simp only [List.append_assoc]; rfl
  have p1 : 37 ∉ ascii "flag:" ++ flag ++ ascii ",fileName:" := by
    simp only [List.mem_append, not_or]
    exact ⟨⟨by decide, hf⟩, by decide⟩
  have e2 : arg (ascii "%2,fileSize:%3;") fileName
      = fileName ++ 44 :: ascii "fileSize:%3;" := rfl
  have e3 : arg (44 :: ascii "fileSize:%3;") (decimal size)
      = ascii ",fileSize:" ++ decimal size ++ ascii ";" := rfl
  have e4 : arg (fileName ++ 44 :: ascii "fileSize:%3;") (decimal size) =
      fileName ++ arg (44 :: ascii "fileSize:%3;") (decimal size) :=
    arg_markers fileName 44 (ascii "fileSize:%3;") (decimal size) 3 (by decide) (by decide)
      (by decide) ((markersAbove_iff 3 fileName).mp hn)
  rw [headerText, e1, arg_skip _ _ _ p1, e2, arg_skip _ _ _ p1, e4, e3, renderedText]
  simp only [List.append_assoc]

theorem flag_clean (flag : Bytes)
    (hflag : flag = ascii "save" ∨ flag = ascii "upd" ∨ flag = ascii "load") :
    37 ∉ flag ∧ 44 ∉ flag ∧ 58 ∉ flag ∧ 0 ∉ flag ∧ ∀ c ∈ flag, c < 128 := by
  rcases hflag with h | h | h <;> subst h <;> decide

theorem renderedText_no_nul (flag fileName : Bytes) (size : Nat)
    (hf : 0 ∉ flag) (hn : 0 ∉ fileName) : 0 ∉ renderedText flag fileName (decimal size) := by
  have h1 : (0 : Nat) ∉ ascii "flag:" := by decide
  have h2 : (0 : Nat) ∉ ascii ",fileName:" := by decide
  have h3 : (0 : Nat) ∉ ascii ",fileSize:" := by decide
  have h4 : (0 : Nat) ∉ ascii ";" := by decide
  have h5 : (0 : Nat) ∉ decimal size := decimal_not_mem size 0 (Or.inl (by decide))
  simp only [renderedText, List.mem_append, not_or]
  exact ⟨⟨⟨⟨⟨⟨h1, hf⟩, h2⟩, hn⟩, h3⟩, h5⟩, h4⟩

/-- Decoding a rendered text and what follows it: the fields are decoded one by one,
the keys and separators stay. -/
theorem decodeUtf8_renderedText (flag fileName size J : Bytes) :
    decodeUtf8 (renderedText flag fileName size ++ J) =
      renderedText (decodeUtf8 flag) (decodeUtf8 fileName) (decodeUtf8 size) ++
        decodeUtf8 J := by
  have a1 : ∀ c ∈ ascii "flag", c < 128 := by decide
  have a2 : ∀ c ∈ ascii "fileName", c < 128 := by decide
  have a3 : ∀ c ∈ ascii "fileSize", c < 128 := by decide
  rw [renderedText_shape, renderedText_shape]
  simp only [List.append_assoc, List.cons_append]
  rw [decodeUtf8_ascii_append _ _ a1,
    decodeUtf8_cons_ascii 58 _ (by decide), decodeUtf8_sync flag 44 _ (by decide),
    decodeUtf8_ascii_append _ _ a2,
    decodeUtf8_cons_ascii 58 _ (by decide), decodeUtf8_sync fileName 44 _ (by decide),
    decodeUtf8_ascii_append _ _ a3,
    decodeUtf8_cons_ascii 58 _ (by decide), decodeUtf8_sync size 59 _ (by decide)]

/-- A text that starts with `f`, holds no NUL and is followed by anything: the
`QString` made from it. -/
theorem fromUtf8_renderedText (flag fileName size J : Bytes)
    (h0 : 0 ∉ renderedText flag fileName size) :
    fromUtf8 (renderedText flag fileName size ++ J) =
      renderedText (decodeUtf8 flag) (decodeUtf8 fileName) (decodeUtf8 size) ++
        decodeUtf8 (J.takeWhile (fun c => c != 0)) := by
  rw [fromUtf8, takeWhile_ne_append 0 _ J h0, ← decodeUtf8_renderedText]
  have : renderedText flag fileName size ++ J.takeWhile (fun c => c != 0) =
      102 :: (ascii "lag:" ++ flag ++ ascii ",fileName:" ++ fileName ++ ascii ",fileSize:"
        ++ size ++ ascii ";" ++ J.takeWhile (fun c => c != 0)) := by
    simp only [renderedText, List.append_assoc]; rfl
  rw [this]
  exact convertToUnicode_cons_ascii 102 _ (by decide)

namespace Qt

/-! ## Lemmas on decimal numbers and `toInt` -/

theorem decimalAux_append (m : Nat) : ∀ (fuel : Nat) (acc : Bytes), m < fuel →
    decimalAux fuel m acc = decimalAux (m + 1) m [] ++ acc := by
  induction m using Nat.strong_induction_on with
  | _ m ih =>
    intro fuel acc hf
    obtain ⟨f, rfl⟩ : ∃ f, fuel = f + 1 := ⟨fuel - 1, by omega⟩
    by_cases h0 : m / 10 = 0
    · simp [decimalAux, h0]
    · have hlt : m / 10 < m := Nat.div_lt_self (by omega) (by decide)
      have e1 : decimalAux (f + 1) m acc = decimalAux f (m / 10) ((48 + m % 10) :: acc) := by
        rw [decimalAux, if_neg h0]
      have e2 : decimalAux (m + 1) m [] = decimalAux m (m / 10) [48 + m % 10] := by
        rw [decimalAux, if_neg h0]
      rw [e1, e2, ih (m / 10) hlt f _ (by omega), ih (m / 10) hlt m _ hlt]
      simp

theorem decimal_small (n : Nat) (h : n < 10) : decimal n = [48 + n] := by
  have h0 : n / 10 = 0 := by omega
  have h1 : n % 10 = n := by omega
  simp [decimal, decimalAux, h0, h1]

theorem decimal_step (n : Nat) (h : 10 ≤ n) :
    decimal n = decimal (n / 10) ++ [48 + n % 10] := by
  have h0 : ¬ n / 10 = 0 := by omega
  have hlt : n / 10 < n := Nat.div_lt_self (by omega) (by decide)
  have e2 : decimalAux (n + 1) n [] = decimalAux n (n / 10) [48 + n % 10] := by
    rw [decimalAux, if_neg h0]
  rw [decimal, e2, decimalAux_append (n / 10) n _ hlt, decimal]

theorem decimal_ne_nil (n : Nat) : decimal n ≠ [] := by
  by_cases h : n < 10
  · rw [decimal_small n h]; simp
  · rw [decimal_step n (by omega)]; simp

theorem digitsValue_append (c : Nat) : ∀ (ds : Bytes), ds ≠ [] → ∀ acc : Nat,
    digitsValue (ds ++ [c]) acc =
      (digitsValue ds acc).bind (fun v => (digitValue c).map (fun d => 10 * v + d)) := by
  intro ds
  induction ds with
  | nil => intro h; exact absurd rfl h
  | cons x r ih =>
    intro _ acc
    rcases r with _ | ⟨y, r⟩
    · cases hx : digitValue x with
      | none => simp [digitsValue, hx]
      | some v => simp [digitsValue, hx]
    · cases hx : digitValue x with
      | none => simp [digitsValue, hx]
      | some v =>
        have := ih (by simp) (10 * acc + v)
        simp only [List.cons_append] at this ⊢
        simp only [digitsValue, hx]
        exact this

theorem digitValue_digit (d : Nat) (h : d < 10) : digitValue (48 + d) = some d := by
  simp [digitValue]; omega

/-- Reading the decimal text of a number gives the number back. -/
theorem digitsValue_decimal (n : Nat) : digitsValue (decimal n) 0 = some n := by
  induction n using Nat.strong_induction_on with
  | _ n ih =>
    by_cases h : n < 10
    · rw [decimal_small n h]
      simp [digitsValue, digitValue_digit n h]
    · rw [decimal_step n (by omega), digitsValue_append _ _ (decimal_ne_nil _) 0,
        ih (n / 10) (Nat.div_lt_self (by omega) (by decide)),
        digitValue_digit (n % 10) (Nat.mod_lt _ (by decide))]
      simp only [Option.some_bind, Option.map_some', Option.some.injEq]
      omega

theorem isSpace_digit (c : Nat) (h : 48 ≤ c ∧ c ≤ 57) : isSpace c = false := by
  simp [isSpace]; omega

theorem dropWhile_isSpace_decimal (n : Nat) : (decimal n).dropWhile isSpace = decimal n := by
  rcases hd : decimal n with _ | ⟨c, r⟩
  · rfl
  · have hc : 48 ≤ c ∧ c ≤ 57 := decimal_digits n c (by rw [hd]; exact List.mem_cons_self _ _)
    rw [List.dropWhile_cons, isSpace_digit c hc]
    rfl

theorem dropWhile_isSpace_reverse_decimal (n : Nat) :
    (decimal n).reverse.dropWhile isSpace = (decimal n).reverse := by
  rcases hd : (decimal n).reverse with _ | ⟨c, r⟩
  · rfl
  · have hm : c ∈ decimal n := by
      rw [← List.mem_reverse, hd]; exact List.mem_cons_self _ _
    rw [List.dropWhile_cons, isSpace_digit c (decimal_digits n c hm)]
    rfl

/-- Model fact for `QString::toInt` on the text `QString::arg(qint64)` wrote: the size comes
back, as long as it fits an `int`. -/
theorem toInt_decimal (n : Nat) (h : n < 2 ^ 31) : toInt (decimal n) = (n : Int) := by
  unfold toInt
  simp only [dropWhile_isSpace_decimal, dropWhile_isSpace_reverse_decimal, List.reverse_reverse]
  rcases hd : decimal n with _ | ⟨c, r⟩
  · exact absurd hd (decimal_ne_nil n)
  · have hc : 48 ≤ c ∧ c ≤ 57 := decimal_digits n c (by rw [hd]; exact List.mem_cons_self _ _)
    have hv := digitsValue_decimal n
    rw [hd] at hv
    split
    · rename_i ds heq
      simp only [List.cons.injEq] at heq
      omega
    · rename_i ds heq
      simp only [List.cons.injEq] at heq
      omega
    · simp only [hv, h, if_true]

theorem length_decimal (k : Nat) : ∀ n, n < 10 ^ (k + 1) → (decimal n).length ≤ k + 1 := by
  induction k with
  | zero =>
    intro n hn
    rw [decimal_small n (by simpa using hn)]
    simp
  | succ k ih =>
    intro n hn
    by_cases h : n < 10
    · rw [decimal_small n h]; simp
    · rw [decimal_step n (by omega), List.length_append]
      have : n / 10 < 10 ^ (k + 1) := by
        rw [Nat.div_lt_iff_lt_mul (by decide)]
        calc n < 10 ^ (k + 1 + 1) := hn
          _ = 10 ^ (k + 1) * 10 := by ring
      have := ih (n / 10) this
      simp only [List.length_singleton]
      omega

/-! ## Lemmas on the time stamp -/

theorem padded_chars (w n : Nat) : ∀ c ∈ padded w n, 48 ≤ c ∧ c ≤ 57 := by
  intro c hc
  rcases List.mem_append.mp hc with h | h
  · have := List.eq_of_mem_replicate h
    omega
  · exact decimal_digits n c h

/-- The time stamp holds digits, `.`, `/` and `:` only. -/
theorem format_chars (t : DateTime) :
    ∀ c ∈ t.format, (48 ≤ c ∧ c ≤ 57) ∨ c = 46 ∨ c = 47 ∨ c = 58 := by
  intro c hc
  simp only [DateTime.format, List.mem_append, List.mem_singleton] at hc
  rcases hc with (((((((((((h | h) | h) | h) | h) | h) | h) | h) | h) | h) | h) | h) | h
  all_goals first
    | exact Or.inl (padded_chars _ _ c h)
    | (subst h; decide)

theorem format_not_mem (t : DateTime) (c : Nat)
    (h : c < 46 ∨ 58 < c) : c ∉ t.format := by
  intro hc
  have := format_chars t c hc
  omega

end Qt

namespace Qt

theorem fromUtf8_ascii_append (p r : Bytes) (hp : ∀ c ∈ p, c < 128) (h0 : 0 ∉ p)
    (hne : p ≠ []) :
    fromUtf8 (p ++ r) = p ++ decodeUtf8 (r.takeWhile (fun c => c != 0)) := by
  rw [fromUtf8, takeWhile_ne_append 0 p r h0]
  rcases p with _ | ⟨c, p⟩
  · exact absurd rfl hne
  · rw [List.cons_append, convertToUnicode_cons_ascii c _ (hp c (List.mem_cons_self _ _)),
      ← List.cons_append, decodeUtf8_ascii_append _ _ hp]

/-- When a NUL is in the text, nothing behind the text reaches the `QString`. -/
theorem fromUtf8_of_mem (t r : Bytes) (h : 0 ∈ t) : fromUtf8 (t ++ r) = fromUtf8 t := by
  have : ∀ (t : Bytes), 0 ∈ t → (t ++ r).takeWhile (fun c => c != 0) =
      t.takeWhile (fun c => c != 0) := by
    intro t
    induction t with
    | nil => intro h; exact absurd h (List.not_mem_nil _)
    | cons x t ih =>
      intro h
      by_cases hx : x = 0
      · simp [hx]
      · have hx2 : (x != 0) = true := by simpa using hx
        have ht : 0 ∈ t := by
          rcases List.mem_cons.mp h with h | h
          · exact absurd h.symm hx
          · exact h
        simp only [List.cons_append, List.takeWhile_cons, hx2, if_true, ih ht]
  rw [fromUtf8, fromUtf8, this t h]

end Qt

/-- The header string a receiver sees when the frame body starts with a header built
from a text that fits and has no NUL. -/
theorem headerOf_buildHeader (flag fileName : Bytes) (size : Nat) (junk : Nat → Nat)
    (payload : Bytes) (hf : 37 ∉ flag) (hn : markersAbove 3 fileName = true)
    (hf0 : 0 ∉ flag) (hn0 : 0 ∉ fileName)
    (hfit : (renderedText flag fileName (decimal size)).length ≤ 128) :
    headerOf (buildHeader flag fileName size junk ++ payload) =
      renderedText (decodeUtf8 flag) (decodeUtf8 fileName) (decodeUtf8 (decimal size)) ++
        decodeUtf8 (((List.range
          (128 - (renderedText flag fileName (decimal size)).length)).map junk).takeWhile
            (fun c => c != 0)) := by
  rw [headerOf, buildHeader, mid_header _ _ (length_resize _ _ _),
    headerText_eq flag fileName size hf hn, resize_of_le _ _ _ hfit,
    fromUtf8_renderedText _ _ _ _ (renderedText_no_nul flag fileName size hf0 hn0)]

theorem decodeUtf8_decimal (n : Nat) : decodeUtf8 (decimal n) = decimal n :=
  decodeUtf8_ascii _ (fun c hc => by have := decimal_digits n c hc; omega)

/-- Decoding a header built by a sender from a flag among save, upd and load and a
file name free of `,`, `:` and NUL whose place markers are numbered above 3, when
the text fits in 128 bytes: the flag, the file name as UTF-8 decodes it, and the
size. -/
theorem decodeHeader_buildHeader (flag fileName : Bytes) (size : Nat) (junk : Nat → Nat)
    (payload : Bytes)
    (hflag : flag = ascii "save" ∨ flag = ascii "upd" ∨ flag = ascii "load")
    (n44 : 44 ∉ fileName) (n58 : 58 ∉ fileName) (n0 : 0 ∉ fileName)
    (hmark : markersAbove 3 fileName = true)
    (hfit : (renderedText flag fileName (decimal size)).length ≤ 128) :
    decodeHeader (buildHeader flag fileName size junk ++ payload) =
      Except.ok (flag, decodeUtf8 fileName, decimal size) := by
  obtain ⟨f37, f44, f58, f0, fa⟩ := flag_clean flag hflag
  have hh := headerOf_buildHeader flag fileName size junk payload f37 hmark f0 n0 hfit
  rw [decodeUtf8_ascii flag fa, decodeUtf8_decimal] at hh
  obtain ⟨d1, d2, d3⟩ := decode_renderedText flag (decodeUtf8 fileName) (decimal size)
    (decodeUtf8 (((List.range
      (128 - (renderedText flag fileName (decimal size)).length)).map junk).takeWhile
        (fun c => c != 0)))
    f44 f58 (not_mem_decodeUtf8 _ 44 (by decide) n44) (not_mem_decodeUtf8 _ 58 (by decide) n58)
    (decimal_not_mem size 44 (Or.inl (by decide)))
    (decimal_not_mem size 58 (Or.inr (by decide)))
    (decimal_not_mem size 59 (Or.inr (by decide)))
  simp only [decodeHeader, hh, d1, d2, d3, bind, Except.bind, pure, Except.pure]

/-! ## Lemmas on the table file -/

theorem splitOn_append_cons (sep : Nat) (a b : Bytes) :
    (a ++ sep :: b).splitOn sep = a.splitOn sep ++ b.splitOn sep := by
  induction a with
  | nil => simp [List.splitOn, List.splitOnP_cons]
  | cons x a ih =>
    simp only [List.splitOn] at ih ⊢
    rw [List.cons_append, List.splitOnP_cons, List.splitOnP_cons, ih]
    by_cases hx : (x == sep) = true
    · simp [hx]
    · simp only [hx, if_false]
      cases hsp : List.splitOnP (fun c => c == sep) a with
      | nil => exact absurd hsp (List.splitOnP_ne_nil _ _)
      | cons y ys => simp [List.modifyHead]

theorem splitOn_of_not_mem (sep : Nat) (r : Bytes) (h : sep ∉ r) : r.splitOn sep = [r] := by
  simp only [List.splitOn]
  apply List.splitOnP_eq_single
  intro x hx hxs
  have : x = sep := by simpa using hxs
  exact h (this ▸ hx)

theorem decodeHeader_ok (buffer f n s : Bytes)
    (h : decodeHeader buffer = Except.ok (f, n, s)) :
    decodeFlag (headerOf buffer) = Except.ok f ∧
    decodeFileName (headerOf buffer) = Except.ok n ∧
    decodeSize (headerOf buffer) = Except.ok s := by
  simp only [decodeHeader, bind, Except.bind, pure, Except.pure] at h
  cases h1 : decodeFlag (headerOf buffer) with
  | error e => simp [h1] at h
  | ok a =>
    cases h2 : decodeFileName (headerOf buffer) with
    | error e => simp [h1, h2] at h
    | ok b =>
      cases h3 : decodeSize (headerOf buffer) with
      | error e => simp [h1, h2, h3] at h
      | ok c =>
        simp only [h1, h2, h3, Except.ok.injEq, Prod.mk.injEq] at h
        obtain ⟨rfl, rfl, rfl⟩ := h
        exact ⟨rfl, rfl, rfl⟩

/-! ## The header round trip -/

namespace Server

@[simp] theorem emit_connection_set (st : Server) (sev : Severity) (msg : Message) :
    (st.emit sev msg).connection_set = st.connection_set := rfl

@[simp] theorem emit_isOpen (st : Server) (sev : Severity) (msg : Message) :
    (st.emit sev msg).isOpen = st.isOpen := rfl

@[simp] theorem emit_applicationDirPath (st : Server) (sev : Severity) (msg : Message) :
    (st.emit sev msg).applicationDirPath = st.applicationDirPath := rfl

@[simp] theorem emit_content (st : Server) (sev : Severity) (msg : Message) :
    (st.emit sev msg).content = st.content := rfl

@[simp] theorem emit_isDir (st : Server) (sev : Severity) (msg : Message) :
    (st.emit sev msg).isDir = st.isDir := rfl

@[simp] theorem emit_canRead (st : Server) (sev : Severity) (msg : Message) :
    (st.emit sev msg).canRead = st.canRead := rfl

@[simp] theorem emit_canWrite (st : Server) (sev : Severity) (msg : Message) :
    (st.emit sev msg).canWrite = st.canWrite := rfl

@[simp] theorem emit_pending (st : Server) (sev : Severity) (msg : Message) :
    (st.emit sev msg).pending = st.pending := rfl

@[simp] theorem emit_sent (st : Server) (sev : Severity) (msg : Message) :
    (st.emit sev msg).sent = st.sent := rfl

@[simp] theorem emit_dirOfSavedFiles (st : Server) (sev : Severity) (msg : Message) :
    (st.emit sev msg).dirOfSavedFiles = st.dirOfSavedFiles := rfl

@[simp] theorem emit_pathToTableFile (st : Server) (sev : Severity) (msg : Message) :
    (st.emit sev msg).pathToTableFile = st.pathToTableFile := rfl

@[simp] theorem emit_filePath (st : Server) (sev : Severity) (msg : Message) (n : Bytes) :
    (st.emit sev msg).filePath n = st.filePath n := rfl

@[simp] theorem emit_openForWriting (st : Server) (sev : Severity) (msg : Message) (q : Bytes) :
    (st.emit sev msg).openForWriting q = st.openForWriting q := rfl

@[simp] theorem send_connection_set (st : Server) (socket : Nat) (b : Bytes) :
    (st.send socket b).connection_set = st.connection_set := rfl

@[simp] theorem send_isOpen (st : Server) (socket : Nat) (b : Bytes) :
    (st.send socket b).isOpen = st.isOpen := rfl

@[simp] theorem send_applicationDirPath (st : Server) (socket : Nat) (b : Bytes) :
    (st.send socket b).applicationDirPath = st.applicationDirPath := rfl

@[simp] theorem send_content (st : Server) (socket : Nat) (b : Bytes) :
    (st.send socket b).content = st.content := rfl

@[simp] theorem send_isDir (st : Server) (socket : Nat) (b : Bytes) :
    (st.send socket b).isDir = st.isDir := rfl

@[simp] theorem send_canRead (st : Server) (socket : Nat) (b : Bytes) :
    (st.send socket b).canRead = st.canRead := rfl

@[simp] theorem send_canWrite (st : Server) (socket : Nat) (b : Bytes) :
    (st.send socket b).canWrite = st.canWrite := rfl

@[simp] theorem send_pending (st : Server) (socket : Nat) (b : Bytes) :
    (st.send socket b).pending = st.pending := rfl

@[simp] theorem send_log (st : Server) (socket : Nat) (b : Bytes) :
    (st.send socket b).log = st.log := rfl

@[simp] theorem send_dirOfSavedFiles (st : Server) (socket : Nat) (b : Bytes) :
    (st.send socket b).dirOfSavedFiles = st.dirOfSavedFiles := rfl

@[simp] theorem send_pathToTableFile (st : Server) (socket : Nat) (b : Bytes) :
    (st.send socket b).pathToTableFile = st.pathToTableFile := rfl

@[simp] theorem send_filePath (st : Server) (socket : Nat) (b : Bytes) (n : Bytes) :
    (st.send socket b).filePath n = st.filePath n := rfl

@[simp] theorem send_openForWriting (st : Server) (socket : Nat) (b : Bytes) (q : Bytes) :
    (st.send socket b).openForWriting q = st.openForWriting q := rfl

@[simp] theorem truncateFile_connection_set (st : Server) (path : Bytes) :
    (st.truncateFile path).connection_set = st.connection_set := rfl

@[simp] theorem truncateFile_isOpen (st : Server) (path : Bytes) :
    (st.truncateFile path).isOpen = st.isOpen := rfl

@[simp] theorem truncateFile_applicationDirPath (st : Server) (path : Bytes) :
    (st.truncateFile path).applicationDirPath = st.applicationDirPath := rfl

@[simp] theorem truncateFile_isDir (st : Server) (path : Bytes) :
    (st.truncateFile path).isDir = st.isDir := rfl

@[simp] theorem truncateFile_canRead (st : Server) (path : Bytes) :
    (st.truncateFile path).canRead = st.canRead := rfl

@[simp] theorem truncateFile_canWrite (st : Server) (path : Bytes) :
    (st.truncateFile path).canWrite = st.canWrite := rfl

@[simp] theorem truncateFile_pending (st : Server) (path : Bytes) :
    (st.truncateFile path).pending = st.pending := rfl

@[simp] theorem truncateFile_sent (st : Server) (path : Bytes) :
    (st.truncateFile path).sent = st.sent := rfl

@[simp] theorem truncateFile_log (st : Server) (path : Bytes) :
    (st.truncateFile path).log = st.log := rfl

@[simp] theorem truncateFile_dirOfSavedFiles (st : Server) (path : Bytes) :
    (st.truncateFile path).dirOfSavedFiles = st.dirOfSavedFiles := rfl

@[simp] theorem truncateFile_pathToTableFile (st : Server) (path : Bytes) :
    (st.truncateFile path).pathToTableFile = st.pathToTableFile := rfl

@[simp] theorem truncateFile_filePath (st : Server) (path : Bytes) (n : Bytes) :
    (st.truncateFile path).filePath n = st.filePath n := rfl

@[simp] theorem truncateFile_openForWriting (st : Server) (path : Bytes) (q : Bytes) :
    (st.truncateFile path).openForWriting q = st.openForWriting q := rfl

@[simp] theorem writeAtStart_connection_set (st : Server) (path data : Bytes) :
    (st.writeAtStart path data).connection_set = st.connection_set := rfl

@[simp] theorem writeAtStart_isOpen (st : Server) (path data : Bytes) :
    (st.writeAtStart path data).isOpen = st.isOpen := rfl

@[simp] theorem writeAtStart_applicationDirPath (st : Server) (path data : Bytes) :
    (st.writeAtStart path data).applicationDirPath = st.applicationDirPath := rfl

@[simp] theorem writeAtStart_isDir (st : Server) (path data : Bytes) :
    (st.writeAtStart path data).isDir = st.isDir := rfl

@[simp] theorem writeAtStart_canRead (st : Server) (path data : Bytes) :
    (st.writeAtStart path data).canRead = st.canRead := rfl

@[simp] theorem writeAtStart_canWrite (st : Server) (path data : Bytes) :
    (st.writeAtStart path data).canWrite = st.canWrite := rfl

@[simp] theorem writeAtStart_pending (st : Server) (path data : Bytes) :
    (st.writeAtStart path data).pending = st.pending := rfl

@[simp] theorem writeAtStart_sent (st : Server) (path data : Bytes) :
    (st.writeAtStart path data).sent = st.sent := rfl

@[simp] theorem writeAtStart_log (st : Server) (path data : Bytes) :
    (st.writeAtStart path data).log = st.log := rfl

@[simp] theorem writeAtStart_dirOfSavedFiles (st : Server) (path data : Bytes) :
    (st.writeAtStart path data).dirOfSavedFiles = st.dirOfSavedFiles := rfl

@[simp] theorem writeAtStart_pathToTableFile (st : Server) (path data : Bytes) :
    (st.writeAtStart path data).pathToTableFile = st.pathToTableFile := rfl

@[simp] theorem writeAtStart_filePath (st : Server) (path data : Bytes) (n : Bytes) :
    (st.writeAtStart path data).filePath n = st.filePath n := rfl

@[simp] theorem writeAtStart_openForWriting (st : Server) (path data : Bytes) (q : Bytes) :
    (st.writeAtStart path data).openForWriting q = st.openForWriting q := rfl

@[simp] theorem appendFile_connection_set (st : Server) (path data : Bytes) :
    (st.appendFile path data).connection_set = st.connection_set := rfl

@[simp] theorem appendFile_isOpen (st : Server) (path data : Bytes) :
    (st.appendFile path data).isOpen = st.isOpen := rfl

@[simp] theorem appendFile_applicationDirPath (st : Server) (path data : Bytes) :
    (st.appendFile path data).applicationDirPath = st.applicationDirPath := rfl

@[simp] theorem appendFile_isDir (st : Server) (path data : Bytes) :
    (st.appendFile path data).isDir = st.isDir := rfl

@[simp] theorem appendFile_canRead (st : Server) (path data : Bytes) :
    (st.appendFile path data).canRead = st.canRead := rfl

@[simp] theorem appendFile_canWrite (st : Server) (path data : Bytes) :
    (st.appendFile path data).canWrite = st.canWrite := rfl

@[simp] theorem appendFile_pending (st : Server) (path data : Bytes) :
    (st.appendFile path data).pending = st.pending := rfl

@[simp] theorem appendFile_sent (st : Server) (path data : Bytes) :
    (st.appendFile path data).sent = st.sent := rfl

@[simp] theorem appendFile_log (st : Server) (path data : Bytes) :
    (st.appendFile path data).log = st.log := rfl

@[simp] theorem appendFile_dirOfSavedFiles (st : Server) (path data : Bytes) :
    (st.appendFile path data).dirOfSavedFiles = st.dirOfSavedFiles := rfl

@[simp] theorem appendFile_pathToTableFile (st : Server) (path data : Bytes) :
    (st.appendFile path data).pathToTableFile = st.pathToTableFile := rfl

@[simp] theorem appendFile_filePath (st : Server) (path data : Bytes) (n : Bytes) :
    (st.appendFile path data).filePath n = st.filePath n := rfl

@[simp] theorem appendFile_openForWriting (st : Server) (path data : Bytes) (q : Bytes) :
    (st.appendFile path data).openForWriting q = st.openForWriting q := rfl

@[simp] theorem emit_log (st : Server) (sev : Severity) (msg : Message) :
    (st.emit sev msg).log = st.log ++ [(sev, msg)] := rfl

@[simp] theorem send_sent (st : Server) (socket : Nat) (b : Bytes) :
    (st.send socket b).sent = st.sent ++ [(socket, b)] := rfl

@[simp] theorem send_openReadOnly (st : Server) (socket : Nat) (b q : Bytes) :
    (st.send socket b).openReadOnly q = st.openReadOnly q := rfl

@[simp] theorem emit_fileExists (st : Server) (sev : Severity) (msg : Message) (q : Bytes) :
    (st.emit sev msg).fileExists q = st.fileExists q := rfl

@[simp] theorem send_fileExists (st : Server) (socket : Nat) (b q : Bytes) :
    (st.send socket b).fileExists q = st.fileExists q := rfl

@[simp] theorem emit_fileSize (st : Server) (sev : Severity) (msg : Message) (q : Bytes) :
    (st.emit sev msg).fileSize q = st.fileSize q := rfl

@[simp] theorem send_fileSize (st : Server) (socket : Nat) (b q : Bytes) :
    (st.send socket b).fileSize q = st.fileSize q := rfl

theorem truncateFile_content (st : Server) (path : Bytes) :
    (st.truncateFile path).content =
      fun q => if q = canonicalPath path then some [] else st.content q := rfl

theorem writeAtStart_content (st : Server) (path data : Bytes) :
    (st.writeAtStart path data).content =
      fun q => if q = canonicalPath path then
        some (data ++ ((st.content (canonicalPath path)).getD []).drop data.length)
      else st.content q := rfl

theorem appendFile_content (st : Server) (path data : Bytes) :
    (st.appendFile path data).content =
      fun q => if q = canonicalPath path then
        some ((st.content (canonicalPath path)).getD [] ++ data)
      else st.content q := rfl

end Server

/-- Every header a sender builds starts with `flag:<flag>,fileName:`. -/
theorem headerText_start (flag fileName : Bytes) (size : Nat) (hf : 37 ∉ flag) :
    ∃ Z, headerText flag fileName size = (ascii "flag:" ++ flag ++ ascii ",fileName:") ++ Z := by
  have e1 : arg headerTemplate flag
      = (ascii "flag:" ++ flag ++ ascii ",fileName:") ++ ascii "%2,fileSize:%3;" := by
    simp only [List.append_assoc]; rfl
  have p1 : 37 ∉ ascii "flag:" ++ flag ++ ascii ",fileName:" := by
    simp only [List.mem_append, not_or]
    exact ⟨⟨by decide, hf⟩, by decide⟩
  refine ⟨arg (arg (ascii "%2,fileSize:%3;") fileName) (decimal size), ?_⟩
  rw [headerText, e1, arg_skip _ _ _ p1, arg_skip _ _ _ p1]

/-- A receiver reads the flag a sender has put in the header, whatever the file name,
the size and the uninitialised bytes are. -/
theorem decodeFlag_buildHeader (flag fileName : Bytes) (size : Nat) (junk : Nat → Nat)
    (payload : Bytes)
    (hflag : flag = ascii "save" ∨ flag = ascii "upd" ∨ flag = ascii "load") :
    decodeFlag (headerOf (buildHeader flag fileName size junk ++ payload)) = Except.ok flag := by
  obtain ⟨f37, f44, f58, f0, fa⟩ := flag_clean flag hflag
  obtain ⟨Z, hZ⟩ := headerText_start flag fileName size f37
  have hlen : (ascii "flag:" ++ flag ++ ascii ",fileName:").length ≤ 128 := by
    rcases hflag with h | h | h <;> subst h <;> decide
  have p0 : 0 ∉ ascii "flag:" ++ flag ++ ascii ",fileName:" := by
    simp only [List.mem_append, not_or]
    exact ⟨⟨by decide, f0⟩, by decide⟩
  have pa : ∀ c ∈ ascii "flag:" ++ flag ++ ascii ",fileName:", c < 128 := by
    intro c hc
    simp only [List.mem_append] at hc
    rcases hc with (h | h) | h
    · exact (by decide : ∀ c ∈ ascii "flag:", c < 128) c h
    · exact fa c h
    · exact (by decide : ∀ c ∈ ascii ",fileName:", c < 128) c h
  have pne : ascii "flag:" ++ flag ++ ascii ",fileName:" ≠ [] := by
    intro e
    have := congrArg List.length e
    simp [ascii] at this
  have hres : ∃ W, resize (headerText flag fileName size) 128 junk
      = (ascii "flag:" ++ flag ++ ascii ",fileName:") ++ W := by
    refine ⟨Z.take (128 - (ascii "flag:" ++ flag ++ ascii ",fileName:").length) ++
      (List.range (128 - (headerText flag fileName size).length)).map junk, ?_⟩
    rw [resize, hZ, List.take_append_eq_append_take, List.take_of_length_le hlen]
    simp only [List.append_assoc]
  obtain ⟨W, hW⟩ := hres
  have shape : ∀ K : Bytes, (ascii "flag:" ++ flag ++ ascii ",fileName:") ++ K
      = (ascii "flag" ++ 58 :: flag) ++ 44 :: (ascii "fileName:" ++ K) := by
    intro K
    have h1 : ascii "flag:" = ascii "flag" ++ [58] := by decide
    have h2 : ascii ",fileName:" = 44 :: ascii "fileName:" := by decide
    simp only [h1, h2, List.append_assoc, List.cons_append, List.nil_append,
      List.singleton_append]
  have kA : (44 : Nat) ∉ ascii "flag" ++ 58 :: flag :=
    not_mem_key_append (by decide) (by decide) f44
  have k1 : (58 : Nat) ∉ ascii "flag" := by decide
  rw [headerOf, buildHeader, mid_header _ _ (length_resize _ _ _), hW,
    fromUtf8_ascii_append _ _ pa p0 pne, shape]
  simp only [decodeFlag, bind, Except.bind]
  rw [index_split_zero, takeWhile_ne_append_sep 44 _ _ kA]
  simp only []
  rw [index_split_one 58 _ _ k1, takeWhile_ne_self 58 _ f58]

theorem openReadOnly_content (st : Server) (path t : Bytes)
    (h : st.openReadOnly path = some t) : st.content (canonicalPath path) = some t := by
  unfold Server.openReadOnly at h
  split at h
  · exact h
  · cases h

/-- The read of the table file when it can be opened: the whole file, and its length
is the size the header declares. -/
theorem sendTableToClient_ok (st : Server) (socket : Nat) (junk : Nat → Nat → Nat)
    (t : Bytes) (ht : st.openReadOnly st.pathToTableFile = some t) :
    Server.sendTableToClient st socket junk = Except.ok (st.send socket
      (buildHeader (ascii "upd") (fileNameOfPath st.pathToTableFile) t.length
        (junk st.sent.length) ++ t)) := by
  have hc := openReadOnly_content st _ t ht
  simp [Server.sendTableToClient, Server.getTable, Server.fileSize, ht, hc, bind, Except.bind,
    pure, Except.pure]

/-- When the table file cannot be opened for reading, `sendTableToClient` emits the critical
message and the process exits, nothing written. -/
theorem sendTableToClient_exit (st : Server) (socket : Nat) (junk : Nat → Nat → Nat)
    (ht : st.openReadOnly st.pathToTableFile = none) :
    Server.sendTableToClient st socket junk = Except.error (Fault.exitFailure
      (st.log ++ [(Severity.critical, Message.cantOpenToRead st.pathToTableFile)])
      st.sent) := by
  simp [Server.sendTableToClient, Server.getTable, ht, bind, Except.bind]

/-- The broadcast over a list of sockets when the table file cannot be read and one
of the sockets is open: the process exits at the first open socket, after a critical
message for each socket before it, nothing written. -/
theorem sendTableToSockets_exit (junk : Nat → Nat → Nat) (l : List Nat) (st : Server)
    (ht : st.openReadOnly st.pathToTableFile = none)
    (hopen : ∃ s ∈ l, st.isOpen s = true) :
    ∃ lg, Server.sendTableToSockets junk l st = Except.error (Fault.exitFailure
      (st.log ++ lg ++ [(Severity.critical, Message.cantOpenToRead st.pathToTableFile)])
      st.sent) ∧
      ∀ m ∈ lg, ∃ s, m = (Severity.critical, Message.socketNotOpened s) := by
  induction l generalizing st with
  | nil =>
    obtain ⟨s, hs, -⟩ := hopen
    exact absurd hs (List.not_mem_nil _)
  | cons socket rest ih =>
    by_cases ho : st.isOpen socket = true
    · refine ⟨[], ?_, by simp⟩
      rw [Server.sendTableToSockets, if_pos ho, sendTableToClient_exit st socket junk ht]
      simp
    · have ho2 : st.isOpen socket = false := by simpa using ho
      have hopen2 : ∃ s ∈ rest,
          (st.emit Severity.critical (Message.socketNotOpened socket)).isOpen s = true := by
        obtain ⟨s, hs, hso⟩ := hopen
        rcases List.mem_cons.mp hs with h | h
        · rw [h] at hso; rw [hso] at ho2; cases ho2
        · exact ⟨s, h, hso⟩
      obtain ⟨lg, h1, h2⟩ :=
        ih (st.emit Severity.critical (Message.socketNotOpened socket)) ht hopen2
      refine ⟨(Severity.critical, Message.socketNotOpened socket) :: lg, ?_, ?_⟩
      · rw [Server.sendTableToSockets, if_neg ho, h1]
        simp only [Server.emit_log, Server.emit_pathToTableFile, Server.emit_sent,
          List.append_assoc, List.singleton_append]
      · intro m hm
        rcases List.mem_cons.mp hm with h | h
        · exact ⟨socket, h⟩
        · exact h2 m h

/-- The dispatch of a Save envelope whose file can be opened for writing: the file is
cut, the record is appended to the table file if that can be opened, the table is
broadcast from a state `S` that differs from the first one in these two files and
the log only, and then what was left in the write buffer reaches the file. -/
theorem dispatch_save_state (st : Server) (socket : Nat) (h p : Bytes) (now : DateTime)
    (n size : Bytes) (junk : Nat → Nat → Nat) (hl : h.length = 128)
    (hdec : decodeHeader (h ++ p) = Except.ok (ascii "save", n, size))
    (hw : st.openForWriting (st.filePath n) = true) :
    ∃ S : Server, Server.dispatch st socket (h ++ p) now junk =
        (Server.sendTableToSockets junk st.connection_set S).bind
          (fun st6 => Except.ok
            (st6.writeAtStart (st.filePath n) (Server.leftInWriteBuffer p))) ∧
      S.sent = st.sent ∧ S.isOpen = st.isOpen ∧
      S.applicationDirPath = st.applicationDirPath ∧
      S.connection_set = st.connection_set ∧ S.canRead = st.canRead ∧
      S.log = st.log ++ [(Severity.info, Message.receivingFile socket size n),
        (Severity.debug, Message.tryingToSave (st.filePath n)),
        (Severity.info, Message.fileStored socket (st.filePath n)),
        if st.openForWriting st.pathToTableFile = true then
          (Severity.info, Message.addedToTable n)
        else (Severity.warning, Message.cantAppendToTable st.pathToTableFile n)] ∧
      S.content = (fun q =>
        if st.openForWriting st.pathToTableFile = true ∧
            q = canonicalPath st.pathToTableFile then
          some ((if canonicalPath st.pathToTableFile = canonicalPath (st.filePath n) then
              Server.writtenAtOnce p
            else (st.content (canonicalPath st.pathToTableFile)).getD []) ++
            Server.tableRecord now.format n st.dirOfSavedFiles)
        else if q = canonicalPath (st.filePath n) then some (Server.writtenAtOnce p)
        else st.content q) := by
  obtain ⟨d1, d2, d3⟩ := decodeHeader_ok _ _ _ _ hdec
  have hd : Server.dispatch st socket (h ++ p) now junk =
      (Server.appendSavedFileToTable
        (((((st.emit Severity.info (Message.receivingFile socket size n)).emit
          Severity.debug (Message.tryingToSave (st.filePath n))).truncateFile
          (st.filePath n)).writeAtStart (st.filePath n) (Server.writtenAtOnce p)).emit
          Severity.info (Message.fileStored socket (st.filePath n)))
        now.format n junk).bind
        (fun st6 => Except.ok
          (st6.writeAtStart (st.filePath n) (Server.leftInWriteBuffer p))) := by
    rw [Server.dispatch, d1]
    simp only [bind, Except.bind, if_true, midFrom_header h p hl]
    rw [Server.saveFileOnServer, d2, d3]
    simp only [bind, Except.bind, Server.emit_openForWriting, hw, if_true,
      Server.emit_filePath, pure, Except.pure]
  rw [hd]
  by_cases ha : st.openForWriting st.pathToTableFile = true
  · refine ⟨((((((st.emit Severity.info (Message.receivingFile socket size n)).emit
      Severity.debug (Message.tryingToSave (st.filePath n))).truncateFile
      (st.filePath n)).writeAtStart (st.filePath n) (Server.writtenAtOnce p)).emit
      Severity.info (Message.fileStored socket (st.filePath n))).appendFile
      st.pathToTableFile (Server.tableRecord now.format n st.dirOfSavedFiles)).emit
      Severity.info (Message.addedToTable n), ?_, ?_, ?_, ?_, ?_, ?_, ?_, ?_⟩
    · simp only [Server.appendSavedFileToTable, Server.emit_openForWriting,
        Server.emit_pathToTableFile,
        Server.writeAtStart_pathToTableFile, Server.truncateFile_pathToTableFile,
        Server.writeAtStart_openForWriting, Server.truncateFile_openForWriting, ha, if_true,
        Server.sendTableToClients,
        Server.appendFile_connection_set, Server.emit_connection_set,
        Server.writeAtStart_connection_set, Server.truncateFile_connection_set,
        Server.emit_dirOfSavedFiles, Server.writeAtStart_dirOfSavedFiles,
        Server.truncateFile_dirOfSavedFiles]
    · simp only [Server.emit_sent, Server.appendFile_sent, Server.writeAtStart_sent,
        Server.truncateFile_sent]
    · simp only [Server.emit_isOpen, Server.appendFile_isOpen, Server.writeAtStart_isOpen,
        Server.truncateFile_isOpen]
    · simp only [Server.emit_applicationDirPath, Server.appendFile_applicationDirPath,
        Server.writeAtStart_applicationDirPath, Server.truncateFile_applicationDirPath]
    · simp only [Server.emit_connection_set, Server.appendFile_connection_set,
        Server.writeAtStart_connection_set, Server.truncateFile_connection_set]
    · simp only [Server.emit_canRead, Server.appendFile_canRead, Server.writeAtStart_canRead,
        Server.truncateFile_canRead]
    · simp only [Server.emit_log, Server.appendFile_log, Server.writeAtStart_log,
        Server.truncateFile_log, List.append_assoc, List.singleton_append, List.cons_append,
        List.nil_append, ha, if_true]
    · funext q
      simp only [Server.emit_content, Server.appendFile_content, Server.writeAtStart_content,
        Server.truncateFile_content, if_true, Option.getD_some, List.drop_nil,
        List.append_nil, ha, true_and]
      by_cases hq : q = canonicalPath st.pathToTableFile
      · simp only [hq, if_true]
        by_cases ht : canonicalPath st.pathToTableFile = canonicalPath (st.filePath n)
        · simp only [ht, if_true, Option.getD_some]
        · simp only [ht, if_false]
      · simp only [hq, if_false]
        by_cases hf : q = canonicalPath (st.filePath n)
        · simp only [hf, if_true]
        · simp only [hf, if_false]
  · have ha2 : st.openForWriting st.pathToTableFile = false := by simpa using ha
    refine ⟨(((((st.emit Severity.info (Message.receivingFile socket size n)).emit
      Severity.debug (Message.tryingToSave (st.filePath n))).truncateFile
      (st.filePath n)).writeAtStart (st.filePath n) (Server.writtenAtOnce p)).emit
      Severity.info (Message.fileStored socket (st.filePath n))).emit
      Severity.warning (Message.cantAppendToTable st.pathToTableFile n),
      ?_, ?_, ?_, ?_, ?_, ?_, ?_, ?_⟩
    · simp only [Server.appendSavedFileToTable, Server.emit_openForWriting,
        Server.emit_pathToTableFile,
        Server.writeAtStart_pathToTableFile, Server.truncateFile_pathToTableFile,
        Server.writeAtStart_openForWriting, Server.truncateFile_openForWriting, ha2, Bool.false_eq_true, if_false,
        Server.sendTableToClients,
        Server.emit_connection_set,
        Server.writeAtStart_connection_set, Server.truncateFile_connection_set]
    · simp only [Server.emit_sent, Server.writeAtStart_sent, Server.truncateFile_sent]
    · simp only [Server.emit_isOpen, Server.writeAtStart_isOpen, Server.truncateFile_isOpen]
    · simp only [Server.emit_applicationDirPath,
        Server.writeAtStart_applicationDirPath, Server.truncateFile_applicationDirPath]
    · simp only [Server.emit_connection_set,
        Server.writeAtStart_connection_set, Server.truncateFile_connection_set]
    · simp only [Server.emit_canRead, Server.writeAtStart_canRead,
        Server.truncateFile_canRead]
    · simp only [Server.emit_log, Server.writeAtStart_log,
        Server.truncateFile_log, List.append_assoc, List.singleton_append, List.cons_append,
        List.nil_append, ha2, Bool.false_eq_true, if_false]
    · funext q
      simp only [Server.emit_content, Server.writeAtStart_content,
        Server.truncateFile_content, if_true, Option.getD_some, List.drop_nil,
        List.append_nil, ha2, Bool.false_eq_true, false_and, if_false]
      by_cases hf : q = canonicalPath (st.filePath n)
      · simp only [hf, if_true]
      · simp only [hf, if_false]

theorem not_mem_recordText (c : Nat) (t : DateTime) (n dir : Bytes) (hc : c < 44)
    (hn : c ∉ n) (hd : c ∉ dir) : c ∉ recordText t.format n dir := by
  have h1 : c ∉ t.format := format_not_mem t c (Or.inl (by omega))
  have k1 : ∀ x ∈ ascii ",", 44 ≤ x := by decide
  have k2 : ∀ x ∈ ascii ",file:///", 44 ≤ x := by decide
  have k3 : ∀ x ∈ ascii "/", 44 ≤ x := by decide
  simp only [recordText, List.mem_append, not_or]
  refine ⟨⟨⟨⟨⟨⟨h1, ?_⟩, hn⟩, ?_⟩, hd⟩, ?_⟩, hn⟩
  · intro h; have := k1 c h; omega
  · intro h; have := k2 c h; omega
  · intro h; have := k3 c h; omega

/-! ## The Save postcondition and the broadcast -/

theorem upd_frame (name t : Bytes) (j : Nat → Nat) :
    decodeFlag (headerOf (buildHeader (ascii "upd") name t.length j ++ t)) =
      Except.ok (ascii "upd") ∧
    midFrom (buildHeader (ascii "upd") name t.length j ++ t) 128 = t :=
  ⟨decodeFlag_buildHeader _ _ _ _ _ (Or.inr (Or.inl rfl)),
    midFrom_header _ _ (length_resize _ _ _)⟩
theorem dispatch_update (st : Server) (socket : Nat) (buffer : Bytes) (now : DateTime)
    (junk : Nat → Nat → Nat)
    (hflag : decodeFlag (headerOf buffer) = Except.ok (ascii "upd")) :
    Server.dispatch st socket buffer now junk = Server.sendTableToClient st socket junk := by
  have h1 : ¬ (ascii "upd" = ascii "save") := by decide
  rw [Server.dispatch, hflag]
  simp only [bind, Except.bind, if_neg h1, if_true]

/-- The dispatch of a Save envelope whose file can be opened for writing, when the
table file cannot be read after the append and a registered socket is open: the
broadcast exits the process, nothing written to any socket. -/
theorem dispatch_save_exit (st : Server) (socket : Nat) (h p : Bytes) (now : DateTime)
    (n size : Bytes) (junk : Nat → Nat → Nat) (hl : h.length = 128)
    (hdec : decodeHeader (h ++ p) = Except.ok (ascii "save", n, size))
    (hw : st.openForWriting (st.filePath n) = true)
    (hun : st.canRead (canonicalPath st.pathToTableFile) = false ∨
      (st.content (canonicalPath st.pathToTableFile) = none ∧
        st.openForWriting st.pathToTableFile = false))
    (hopen : ∃ s ∈ st.connection_set, st.isOpen s = true) :
    ∃ lg, Server.dispatch st socket (h ++ p) now junk = Except.error (Fault.exitFailure
      (st.log ++ lg ++ [(Severity.critical, Message.cantOpenToRead st.pathToTableFile)])
      st.sent) := by
  obtain ⟨S, hS, hSs, hSo, hSa, -, hSr, hSl, hSc⟩ :=
    dispatch_save_state st socket h p now n size junk hl hdec hw
  have hSp : S.pathToTableFile = st.pathToTableFile := by
    simp only [Server.pathToTableFile, hSa]
  have hnone : S.openReadOnly S.pathToTableFile = none := by
    rw [Server.openReadOnly, hSp, hSr]
    rcases hun with h1 | ⟨h2, h3⟩
    · simp only [h1, Bool.false_eq_true, if_false]
    · have hpath : ¬ canonicalPath st.pathToTableFile = canonicalPath (st.filePath n) := by
        intro e
        rw [Server.openForWriting, e] at h3
        rw [Server.openForWriting, h3] at hw
        cases hw
      rw [hSc]
      simp only [h3, Bool.false_eq_true, false_and, if_false, if_neg hpath, h2, ite_self]
  obtain ⟨lg, h1, -⟩ := sendTableToSockets_exit junk st.connection_set S hnone
    (by rw [hSo]; exact hopen)
  refine ⟨[(Severity.info, Message.receivingFile socket size n),
        (Severity.debug, Message.tryingToSave (st.filePath n)),
        (Severity.info, Message.fileStored socket (st.filePath n)),
        if st.openForWriting st.pathToTableFile = true then
          (Severity.info, Message.addedToTable n)
        else (Severity.warning, Message.cantAppendToTable st.pathToTableFile n)] ++ lg, ?_⟩
  rw [hS, h1, hSl, hSs, hSp]
  simp only [Except.bind, List.append_assoc]

theorem serve_exit (junk : Nat → Nat → Nat) (st : Server) (socket : Nat)
    (buffer : Bytes) (now : DateTime) (later : List (Nat × Bytes × DateTime)) (e : Fault)
    (h : Server.dispatch st socket buffer now junk = Except.error e) :
    Server.serve junk ((socket, buffer, now) :: later) st = Except.error e := by
  simp only [Server.serve, List.foldlM_cons, h, bind, Except.bind]

/-! ## The Update reply and the unreadable table -/

/-- C6, amended: an Update envelope from the session `socket`. While the table file
can be opened for reading, the dispatch writes exactly one array, to `socket`; its
flag is `upd` and its payload is the whole table file; the files, the directories,
the registry and the log stay as they were, and nothing is written to any other
socket. While the table file cannot be opened for reading, nothing is written to any
socket, the critical message is emitted and the process exits. -/
theorem update_reply (st : Server) (socket : Nat) (buffer : Bytes) (now : DateTime)
    (junk : Nat → Nat → Nat)
    (hflag : decodeFlag (headerOf buffer) = Except.ok (ascii "upd")) :
    (∀ t, st.openReadOnly st.pathToTableFile = some t →
      st.content (canonicalPath st.pathToTableFile) = some t ∧
      ∃ st' frame, Server.dispatch st socket buffer now junk = Except.ok st' ∧
        st'.sent = st.sent ++ [(socket, frame)] ∧
        decodeFlag (headerOf frame) = Except.ok (ascii "upd") ∧
        midFrom frame 128 = t ∧
        st'.content = st.content ∧
        st'.isDir = st.isDir ∧
        st'.connection_set = st.connection_set ∧
        st'.log = st.log) ∧
    (st.openReadOnly st.pathToTableFile = none →
      Server.dispatch st socket buffer now junk = Except.error (Fault.exitFailure
        (st.log ++ [(Severity.critical, Message.cantOpenToRead st.pathToTableFile)])
        st.sent)) := by
  rw [dispatch_update st socket buffer now junk hflag]
  refine ⟨fun t ht => ⟨openReadOnly_content st _ t ht, ?_⟩, fun ht => ?_⟩
  · exact ⟨st.send socket (buildHeader (ascii "upd") (fileNameOfPath st.pathToTableFile)
      t.length (junk st.sent.length) ++ t), _, sendTableToClient_ok st socket junk t ht, rfl,
      (upd_frame _ _ _).1, (upd_frame _ _ _).2, rfl, rfl, rfl, rfl⟩
  · exact sendTableToClient_exit st socket junk ht

set_option maxRecDepth 100000 in
/-- Witness of `update_reply`: session 2 asks for the table of a server that holds
one record, and of a server whose table file is gone. -/
theorem update_reply_witness :
    (∃ st' frame, Server.dispatch exampleServerWithFile 2 exampleUpdateRequest exampleTime
        (fun _ _ => 0) = Except.ok st' ∧
      st'.sent = [(2, frame)] ∧
      decodeFlag (headerOf frame) = Except.ok (ascii "upd") ∧
      midFrom frame 128 =
        ascii "01.11.2026/12:00:00.000,a.txt,file:////srv/SavedFilesOnServer/a.txt\n") ∧
    Server.dispatch exampleServerNoTable 2 exampleUpdateRequest exampleTime (fun _ _ => 0) =
      Except.error (Fault.exitFailure
        [(Severity.critical, Message.cantOpenToRead (ascii "/srv/TableFile.txt"))] []) := by
  refine ⟨?_, (update_reply exampleServerNoTable 2 exampleUpdateRequest exampleTime
    (fun _ _ => 0) (by decide)).2 (by decide)⟩
  obtain ⟨-, st', frame, h1, h2, h3, h4, -⟩ := (update_reply exampleServerWithFile 2
    exampleUpdateRequest exampleTime (fun _ _ => 0) (by decide)).1
    (ascii "01.11.2026/12:00:00.000,a.txt,file:////srv/SavedFilesOnServer/a.txt\n") (by decide)
  exact ⟨st', frame, h1, h2, h3, h4⟩

set_option maxRecDepth 100000 in
/-- C6 as stated fails: on a server whose table file is gone, and on one whose table
file may not be read, the Update request of session 2 gets no envelope; the server
emits the critical message and exits. -/
theorem update_reply_counterexample :
    decodeFlag (headerOf exampleUpdateRequest) = Except.ok (ascii "upd") ∧
    (Server.dispatch exampleServerNoTable 2 exampleUpdateRequest exampleTime
        (fun _ _ => 0)).map (fun st => st.sent) =
      Except.error (Fault.exitFailure
        [(Severity.critical, Message.cantOpenToRead (ascii "/srv/TableFile.txt"))] []) ∧
    (Server.dispatch exampleServerWriteOnlyTable 2 exampleUpdateRequest exampleTime
        (fun _ _ => 0)).map (fun st => st.sent) =
      Except.error (Fault.exitFailure
        [(Severity.critical, Message.cantOpenToRead (ascii "/srv/TableFile.txt"))] []) :=
  ⟨by decide, by decide, by decide⟩

/-- C12, amended: when the table file cannot be opened for reading while the server
builds a snapshot, the server process exits. An Update request in that state emits
the critical message and ends the process. So does a Save whose file could be opened
for writing, as soon as the broadcast reaches an open registered socket, when the
table file may not be read, or is absent and could not be created by the append.
Nothing is written to any socket for the request, the critical message is the last
entry of the log, and whatever requests come later, from any session, are not
served. -/
theorem unreadable_table_store (st : Server) (socket : Nat) (now : DateTime)
    (junk : Nat → Nat → Nat) (later : List (Nat × Bytes × DateTime)) :
    (∀ buffer : Bytes, decodeFlag (headerOf buffer) = Except.ok (ascii "upd") →
      st.openReadOnly st.pathToTableFile = none →
      Server.dispatch st socket buffer now junk = Except.error (Fault.exitFailure
        (st.log ++ [(Severity.critical, Message.cantOpenToRead st.pathToTableFile)])
        st.sent) ∧
      Server.serve junk ((socket, buffer, now) :: later) st = Except.error
        (Fault.exitFailure
          (st.log ++ [(Severity.critical, Message.cantOpenToRead st.pathToTableFile)])
          st.sent)) ∧
    (∀ h p n size : Bytes, h.length = 128 →
      decodeHeader (h ++ p) = Except.ok (ascii "save", n, size) →
      st.openForWriting (st.filePath n) = true →
      (st.canRead (canonicalPath st.pathToTableFile) = false ∨
        (st.content (canonicalPath st.pathToTableFile) = none ∧
          st.openForWriting st.pathToTableFile = false)) →
      (∃ s ∈ st.connection_set, st.isOpen s = true) →
      ∃ lg, Server.dispatch st socket (h ++ p) now junk = Except.error (Fault.exitFailure
          (st.log ++ lg ++ [(Severity.critical, Message.cantOpenToRead st.pathToTableFile)])
          st.sent) ∧
        Server.serve junk ((socket, h ++ p, now) :: later) st = Except.error
          (Fault.exitFailure
            (st.log ++ lg ++
              [(Severity.critical, Message.cantOpenToRead st.pathToTableFile)])
            st.sent)) := by
  refine ⟨?_, ?_⟩
  · intro buffer hflag hnone
    have hd : Server.dispatch st socket buffer now junk = Except.error (Fault.exitFailure
        (st.log ++ [(Severity.critical, Message.cantOpenToRead st.pathToTableFile)])
        st.sent) := by
      rw [dispatch_update st socket buffer now junk hflag]
      exact sendTableToClient_exit st socket junk hnone
    exact ⟨hd, serve_exit junk st socket buffer now later _ hd⟩
  · intro h p n size hl hdec hw hun hopen
    obtain ⟨lg, hd⟩ := dispatch_save_exit st socket h p now n size junk hl hdec hw hun hopen
    exact ⟨lg, hd, serve_exit junk st socket (h ++ p) now later _ hd⟩

set_option maxRecDepth 100000 in
/-- Witness of `unreadable_table_store`: on a server without table file, an Update
request of session 2 followed by one of session 3; on a server whose table file may
not be read, a Save of session 1 followed by an Update request of session 3. -/
theorem unreadable_table_store_witness :
    Server.serve (fun _ _ => 0)
        [(2, exampleUpdateRequest, exampleTime), (3, exampleUpdateRequest, exampleTime)]
        exampleServerNoTable = Except.error (Fault.exitFailure
          [(Severity.critical, Message.cantOpenToRead (ascii "/srv/TableFile.txt"))] []) ∧
    ∃ lg, Server.serve (fun _ _ => 0)
        [(1, exampleSaveHeader ++ ascii "abc", exampleTime),
          (3, exampleUpdateRequest, exampleTime)]
        exampleServerWriteOnlyTable = Except.error (Fault.exitFailure
          (lg ++ [(Severity.critical, Message.cantOpenToRead (ascii "/srv/TableFile.txt"))])
          []) := by
  refine ⟨((unreadable_table_store exampleServerNoTable 2 exampleTime (fun _ _ => 0)
      [(3, exampleUpdateRequest, exampleTime)]).1
      exampleUpdateRequest (by decide) (by decide)).2, ?_⟩
  obtain ⟨lg, -, h2⟩ := (unreadable_table_store exampleServerWriteOnlyTable 1 exampleTime
      (fun _ _ => 0) [(3, exampleUpdateRequest, exampleTime)]).2
      exampleSaveHeader (ascii "abc") (ascii "x.txt") (ascii "3") (by decide) (by decide)
      (by decide) (Or.inl (by decide)) ⟨1, by decide, by decide⟩
  exact ⟨lg, h2⟩

set_option maxRecDepth 100000 in
/-- C12 as stated fails: on a server whose table file is gone, the Update request of
session 2 exits the process; nothing is sent, and the request of session 3 that
follows is not served. On a server whose table file may not be read, the Save of
session 1 exits the process in the broadcast, and nothing is sent. -/
theorem unreadable_table_store_counterexample :
    (Server.serve (fun _ _ => 0)
        [(2, exampleUpdateRequest, exampleTime), (3, exampleUpdateRequest, exampleTime)]
        exampleServerNoTable).map (fun st => st.sent) =
      Except.error (Fault.exitFailure
        [(Severity.critical, Message.cantOpenToRead (ascii "/srv/TableFile.txt"))] []) ∧
    (Server.serve (fun _ _ => 0)
        [(1, exampleSaveHeader ++ ascii "abc", exampleTime),
          (3, exampleUpdateRequest, exampleTime)]
        exampleServerWriteOnlyTable).map (fun st => st.sent) =
      Except.error (Fault.exitFailure
        [(Severity.info, Message.receivingFile 1 (ascii "3") (ascii "x.txt")),
          (Severity.debug, Message.tryingToSave (ascii "/srv/SavedFilesOnServer/x.txt")),
          (Severity.info, Message.fileStored 1 (ascii "/srv/SavedFilesOnServer/x.txt")),
          (Severity.info, Message.addedToTable (ascii "x.txt")),
          (Severity.critical, Message.cantOpenToRead (ascii "/srv/TableFile.txt"))] []) :=
  ⟨by decide, by decide⟩

namespace Qt

end Qt

theorem decodeHeader_congr (b1 b2 : Bytes) (h : headerOf b1 = headerOf b2) :
    decodeHeader b1 = decodeHeader b2 := by
  simp only [decodeHeader, h]

/-- The fields a receiver decodes from a text `flag:<flag>,fileName:<name>,fileSize:<size>;`
without NUL whose fields are free of the separators, whatever follows the text. -/
theorem decodeHeader_text (flag fileName size J p : Bytes)
    (hflag : 44 ∉ flag ∧ 58 ∉ flag) (hname : 44 ∉ fileName ∧ 58 ∉ fileName)
    (hsize : 44 ∉ size ∧ 58 ∉ size ∧ 59 ∉ size)
    (hl : (renderedText flag fileName size ++ J).length = 128)
    (h0 : 0 ∉ renderedText flag fileName size) :
    decodeHeader (renderedText flag fileName size ++ J ++ p) =
      Except.ok (decodeUtf8 flag, decodeUtf8 fileName, decodeUtf8 size) := by
  obtain ⟨d1, d2, d3⟩ := decode_renderedText (decodeUtf8 flag) (decodeUtf8 fileName)
    (decodeUtf8 size) (decodeUtf8 (J.takeWhile (fun c => c != 0)))
    (not_mem_decodeUtf8 _ 44 (by decide) hflag.1) (not_mem_decodeUtf8 _ 58 (by decide) hflag.2)
    (not_mem_decodeUtf8 _ 44 (by decide) hname.1) (not_mem_decodeUtf8 _ 58 (by decide) hname.2)
    (not_mem_decodeUtf8 _ 44 (by decide) hsize.1)
    (not_mem_decodeUtf8 _ 58 (by decide) hsize.2.1)
    (not_mem_decodeUtf8 _ 59 (by decide) hsize.2.2)
  simp only [decodeHeader, headerOf, mid_header _ p hl, fromUtf8_renderedText _ _ _ J h0,
    d1, d2, d3, bind, Except.bind, pure, Except.pure]

/-- C13: two 128-byte headers that start with the same text
`flag:<flag>,fileName:<name>,fileSize:<size>;`, its fields free of the separators
(`,` and `:` in flag and name; `,`, `:` and `;` in the size), and go on with any
filler bytes, each followed by any payload: the receivers decode the same from both,
and when the text holds no NUL what they decode is that flag, that file name and that
size, each as `QString` reads its bytes (as it is, when it is UTF-8 text). -/
theorem padding_ignored (flag fileName size J1 J2 p1 p2 : Bytes)
    (hflag : 44 ∉ flag ∧ 58 ∉ flag) (hname : 44 ∉ fileName ∧ 58 ∉ fileName)
    (hsize : 44 ∉ size ∧ 58 ∉ size ∧ 59 ∉ size)
    (h1 : (renderedText flag fileName size ++ J1).length = 128)
    (h2 : (renderedText flag fileName size ++ J2).length = 128) :
    decodeHeader (renderedText flag fileName size ++ J1 ++ p1) =
      decodeHeader (renderedText flag fileName size ++ J2 ++ p2) ∧
    (0 ∉ renderedText flag fileName size →
      decodeHeader (renderedText flag fileName size ++ J1 ++ p1) =
        Except.ok (decodeUtf8 flag, decodeUtf8 fileName, decodeUtf8 size) ∧
      decodeHeader (renderedText flag fileName size ++ J2 ++ p2) =
        Except.ok (decodeUtf8 flag, decodeUtf8 fileName, decodeUtf8 size)) ∧
    (IsUtf8Text flag → IsUtf8Text fileName → IsUtf8Text size →
      0 ∉ renderedText flag fileName size →
      decodeHeader (renderedText flag fileName size ++ J1 ++ p1) =
        Except.ok (flag, fileName, size) ∧
      decodeHeader (renderedText flag fileName size ++ J2 ++ p2) =
        Except.ok (flag, fileName, size)) := by
  have hd := fun J p hl h0 =>
    decodeHeader_text flag fileName size J p hflag hname hsize hl h0
  refine ⟨?_, fun h0 => ⟨hd J1 p1 h1 h0, hd J2 p2 h2 h0⟩, ?_⟩
  · by_cases h0 : 0 ∈ renderedText flag fileName size
    · apply decodeHeader_congr
      rw [headerOf, headerOf, mid_header _ p1 h1, mid_header _ p2 h2, fromUtf8_of_mem _ J1 h0,
        fromUtf8_of_mem _ J2 h0]
    · rw [hd J1 p1 h1 h0, hd J2 p2 h2 h0]
  · intro t1 t2 t3 h0
    have e1 := hd J1 p1 h1 h0
    have e2 := hd J2 p2 h2 h0
    rw [t1, t2, t3] at e1 e2
    exact ⟨e1, e2⟩

set_option maxRecDepth 100000 in
/-- Witness of `padding_ignored`: the header of `x.txt`, once filled up with NUL bytes
and once with `,:;` and commas. -/
theorem padding_ignored_witness :
    decodeHeader (renderedText (ascii "save") (ascii "x.txt") (ascii "3") ++
        List.replicate 92 0 ++ ascii "abc") =
      Except.ok (ascii "save", ascii "x.txt", ascii "3") ∧
    decodeHeader (renderedText (ascii "save") (ascii "x.txt") (ascii "3") ++
        (ascii ",:;" ++ List.replicate 89 44) ++ ascii "abc") =
      Except.ok (ascii "save", ascii "x.txt", ascii "3") :=
  (padding_ignored (ascii "save") (ascii "x.txt") (ascii "3") (List.replicate 92 0)
    (ascii ",:;" ++ List.replicate 89 44) (ascii "abc") (ascii "abc")
    (by decide) (by decide) (by decide) (by decide) (by decide)).2.2 (by decide) (by decide)
    (by decide) (by decide)

theorem decodeHeader_resize (flag fileName size payload : Bytes) (junk : Nat → Nat)
    (hflag : 44 ∉ flag ∧ 58 ∉ flag) (hname : 44 ∉ fileName ∧ 58 ∉ fileName)
    (hsize : 44 ∉ size ∧ 58 ∉ size ∧ 59 ∉ size)
    (h0 : 0 ∉ renderedText flag fileName size)
    (hfit : (renderedText flag fileName size).length ≤ 128) :
    decodeHeader (resize (renderedText flag fileName size) 128 junk ++ payload) =
      Except.ok (decodeUtf8 flag, decodeUtf8 fileName, decodeUtf8 size) := by
  rw [resize_of_le _ _ _ hfit]
  apply decodeHeader_text flag fileName size _ payload hflag hname hsize _ h0
  simp only [List.length_append, List.length_map, List.length_range]
  omega

set_option maxRecDepth 100000 in
/-- The headers of the client's two requests carry `null` in both fields. -/
theorem decodeHeader_request (flag payload : Bytes) (junk : Nat → Nat)
    (hflag : flag = ascii "upd" ∨ flag = ascii "load") :
    decodeHeader (resize (arg (ascii "flag:%1,fileName:null,fileSize:null;") flag) 128 junk
      ++ payload) = Except.ok (flag, ascii "null", ascii "null") := by
  have e : arg (ascii "flag:%1,fileName:null,fileSize:null;") flag =
      renderedText flag (ascii "null") (ascii "null") := by
    rcases hflag with h | h <;> subst h <;> decide
  have d : decodeUtf8 flag = flag := by
    rcases hflag with h | h <;> subst h <;> decide
  have dn : decodeUtf8 (ascii "null") = ascii "null" := by decide
  rw [e]
  have := decodeHeader_resize flag (ascii "null") (ascii "null") payload junk
    (by rcases hflag with h | h <;> subst h <;> decide) (by decide) (by decide)
    (by rcases hflag with h | h <;> subst h <;> decide)
    (by rcases hflag with h | h <;> subst h <;> decide)
  rw [d, dn] at this
  exact this

theorem decimal_ne_null (n : Nat) : decimal n ≠ ascii "null" := by
  intro h
  have h1 : (110 : Nat) ∈ ascii "null" := by decide
  rw [← h] at h1
  exact decimal_not_mem n 110 (Or.inr (by decide)) h1

/-- The table file is called `TableFile.txt`, wherever the server is installed. -/
theorem fileNameOfPath_table (st : Server) :
    fileNameOfPath st.pathToTableFile = ascii "TableFile.txt" := by
  have e : st.pathToTableFile = st.applicationDirPath ++ 47 :: ascii "TableFile.txt" := rfl
  have h : (47 : Nat) ∉ ascii "TableFile.txt" := by decide
  rw [fileNameOfPath, split, e, splitOn_append_cons, splitOn_of_not_mem 47 _ h]
  simp

/-- C14, amended: the envelopes the client builds for an Update request and for a Load
request carry the sentinel `null` as file name and as file size. The envelope the
server builds for an Update response, and for each socket of a broadcast, from the
table file it has read (of a size within the `qint64` that `QFile::size` returns),
carries the name of the table file, `TableFile.txt`, and the size of the table file
in bytes, not `null`. -/
theorem field_presence (cl : Client) (st : Server) (socket : Nat) (junk : Nat → Nat)
    (junk2 : Nat → Nat → Nat) (dirPath selectedFileNames t : Bytes)
    (ht : st.openReadOnly st.pathToTableFile = some t)
    (hsize : t.length < 2 ^ 63) :
    (∃ frame, (cl.requestTable junk).sent = cl.sent ++ [frame] ∧
      decodeHeader frame = Except.ok (ascii "upd", ascii "null", ascii "null")) ∧
    (∃ frame, (cl.on_loadButton_clicked dirPath selectedFileNames junk).sent =
        cl.sent ++ [frame] ∧
      decodeHeader frame = Except.ok (ascii "load", ascii "null", ascii "null")) ∧
    (∃ st' frame, Server.sendTableToClient st socket junk2 = Except.ok st' ∧
      st'.sent = st.sent ++ [(socket, frame)] ∧
      decodeHeader frame =
        Except.ok (ascii "upd", ascii "TableFile.txt", decimal t.length) ∧
      decimal t.length ≠ ascii "null" ∧
      digitsValue (decimal t.length) 0 = some t.length) := by
  refine ⟨?_, ?_, ?_⟩
  · refine ⟨_, rfl, ?_⟩
    have := decodeHeader_request (ascii "upd") [] junk (Or.inl rfl)
    simpa using this
  · exact ⟨_, rfl, decodeHeader_request (ascii "load") selectedFileNames junk (Or.inr rfl)⟩
  · refine ⟨st.send socket (buildHeader (ascii "upd") (fileNameOfPath st.pathToTableFile)
        t.length (junk2 st.sent.length) ++ t), _, sendTableToClient_ok st socket junk2 t ht,
        rfl, ?_, decimal_ne_null _, digitsValue_decimal _⟩
    rw [fileNameOfPath_table]
    have hlen : (decimal t.length).length ≤ 19 :=
      length_decimal 18 t.length (by
        have : (2 : Nat) ^ 63 < 10 ^ (18 + 1) := by norm_num
        omega)
    have hfit : (renderedText (ascii "upd") (ascii "TableFile.txt")
        (decimal t.length)).length ≤ 128 := by
      simp only [renderedText, List.length_append]
      have : (ascii "flag:").length + (ascii "upd").length + (ascii ",fileName:").length +
          (ascii "TableFile.txt").length + (ascii ",fileSize:").length +
          (ascii ";").length = 42 := by decide
      omega
    have := decodeHeader_buildHeader (ascii "upd") (ascii "TableFile.txt") t.length
      (junk2 st.sent.length) t (Or.inr (Or.inl rfl)) (by decide) (by decide) (by decide)
      (by decide) hfit
    rw [show decodeUtf8 (ascii "TableFile.txt") = ascii "TableFile.txt" by decide] at this
    exact this

set_option maxRecDepth 100000 in
/-- Witness of `field_presence`: the client's Update request, and the Update response
of a server whose table file `TableFile.txt` has 68 bytes. -/
theorem field_presence_witness :
    (∃ frame, (exampleClient.requestTable (fun _ => 0)).sent = [frame] ∧
      decodeHeader frame = Except.ok (ascii "upd", ascii "null", ascii "null")) ∧
    (∃ st' frame, Server.sendTableToClient exampleServerWithFile 2 (fun _ _ => 0) =
        Except.ok st' ∧
      st'.sent = [(2, frame)] ∧
      decodeHeader frame = Except.ok (ascii "upd", ascii "TableFile.txt", ascii "68")) := by
  obtain ⟨h1, -, ⟨st', frame, h3, h4, h5, -⟩⟩ := field_presence exampleClient
    exampleServerWithFile 2 (fun _ => 0) (fun _ _ => 0) [] []
    (ascii "01.11.2026/12:00:00.000,a.txt,file:////srv/SavedFilesOnServer/a.txt\n")
    (by decide) (by decide)
  exact ⟨h1, st', frame, h3, h4, h5⟩

set_option maxRecDepth 100000 in
/-- C14 as stated fails: the Update response of a server whose table file has 68
bytes carries the file name `TableFile.txt` and the file size `68`, not `null`, and
so does each envelope of the broadcast after a Save (the table then has 68 bytes). -/
theorem field_presence_counterexample :
    (Server.dispatch exampleServerWithFile 2 exampleUpdateRequest exampleTime
        (fun _ _ => 0)).map (fun st => st.sent.map (fun e => decodeFileName (headerOf e.2))) =
      Except.ok [Except.ok (ascii "TableFile.txt")] ∧
    (Server.dispatch exampleServerWithFile 2 exampleUpdateRequest exampleTime
        (fun _ _ => 0)).map (fun st => st.sent.map (fun e => decodeSize (headerOf e.2))) =
      Except.ok [Except.ok (ascii "68")] ∧
    (Server.dispatch exampleServer 1 (exampleSaveHeader ++ ascii "abc") exampleTime
        (fun _ _ => 0)).map (fun st => st.sent.map (fun e => (e.1,
          decodeFileName (headerOf e.2), decodeSize (headerOf e.2)))) =
      Except.ok [(1, Except.ok (ascii "TableFile.txt"), Except.ok (ascii "68")),
        (2, Except.ok (ascii "TableFile.txt"), Except.ok (ascii "68")),
        (3, Except.ok (ascii "TableFile.txt"), Except.ok (ascii "68"))] ∧
    ascii "TableFile.txt" ≠ ascii "null" ∧ ascii "68" ≠ ascii "null" :=
  ⟨by decide, by decide, by decide, by decide, by decide⟩

/-! ## The client's table -/

theorem decodeUInt32_encodeUInt32 (n : Nat) (h : n < 2 ^ 32) :
    decodeUInt32 (encodeUInt32 n) = n := by
  simp only [encodeUInt32, decodeUInt32]
  norm_num at h ⊢
  omega

theorem length_writeByteArray (f : Bytes) : (writeByteArray f).length = 4 + f.length := by
  simp [writeByteArray, encodeUInt32]; omega

theorem writeByteArray_eq (f : Bytes) (hf : f.length < 2 ^ 32 - 1) :
    writeByteArray f = encodeUInt32 f.length ++ f := by
  rw [writeByteArray, Nat.mod_eq_of_lt (by omega)]

/-- A transaction on a complete frame followed by more bytes delivers the frame and
leaves those bytes. -/
theorem readByteArray_complete (f rest : Bytes) (hf : f.length < 2 ^ 32 - 1) :
    readByteArray (writeByteArray f ++ rest) = some (f, rest) := by
  have h4 : (writeByteArray f ++ rest).take 4 = encodeUInt32 f.length := by
    rw [writeByteArray_eq f hf]
    simp [encodeUInt32]
  have hd : (writeByteArray f ++ rest).drop 4 = f ++ rest := by
    rw [writeByteArray_eq f hf]
    simp [encodeUInt32]
  have hlen : ¬ (writeByteArray f ++ rest).length < 4 := by
    rw [writeByteArray_eq f hf]
    simp [encodeUInt32]
  have hne : ¬ f.length = 0xFFFFFFFF := by
    norm_num at hf ⊢; omega
  have hlt : ¬ (f ++ rest).length < f.length := by simp
  simp only [readByteArray, hlen, if_false, h4, hd,
    decodeUInt32_encodeUInt32 f.length (by omega), hne, hlt]
  simp

/-- A transaction on a proper beginning of a frame is rolled back. -/
theorem readByteArray_incomplete (f b z : Bytes) (hf : f.length < 2 ^ 32 - 1)
    (hb : writeByteArray f = b ++ z) (hz : z ≠ []) : readByteArray b = none := by
  have hzl : 0 < z.length := List.length_pos.mpr hz
  have hl : b.length + z.length = 4 + f.length := by
    rw [← List.length_append, ← hb, length_writeByteArray]
  by_cases h4 : b.length < 4
  · simp [readByteArray, h4]
  · have hbt : b = (writeByteArray f).take b.length := by rw [hb, List.take_left]
    have ht4 : b.take 4 = encodeUInt32 f.length := by
      rw [hbt, List.take_take, Nat.min_eq_left (by omega), writeByteArray_eq f hf]
      simp [encodeUInt32]
    have hne : ¬ f.length = 0xFFFFFFFF := by
      norm_num at hf ⊢; omega
    have hlt : (b.drop 4).length < f.length := by
      rw [List.length_drop]; omega
    simp only [readByteArray, h4, if_false, ht4,
      decodeUInt32_encodeUInt32 f.length (by omega), hne, hlt, if_true]

theorem readByteArray_nil : readByteArray [] = none := by
  simp [readByteArray]

theorem wireBytes_cons (f : Bytes) (fs : List Bytes) :
    wireBytes (f :: fs) = writeByteArray f ++ wireBytes fs := by
  simp [wireBytes]

/-- A socket buffer that begins the byte stream of a sequence of frames either holds
the first frame whole, or is a proper beginning of it. -/
theorem append_cases (b x e y : Bytes) (h : b ++ x = e ++ y) :
    (∃ b2, b = e ++ b2 ∧ b2 ++ x = y) ∨ (∃ z, z ≠ [] ∧ e = b ++ z) := by
  rcases List.append_eq_append_iff.mp h with ⟨a, h1, h2⟩ | ⟨c, h1, h2⟩
  · by_cases ha : a = []
    · subst ha
      simp only [List.append_nil] at h1
      simp only [List.nil_append] at h2
      exact Or.inl ⟨[], by rw [h1]; simp, by rw [h2]; simp⟩
    · exact Or.inr ⟨a, ha, h1⟩
  · exact Or.inl ⟨c, h1, h2.symm⟩

theorem feedReads_length (pending : Bytes) (reads : List Bytes) :
    (feedReads pending reads).1.length ≤ reads.length := by
  induction reads generalizing pending with
  | nil => simp [feedReads]
  | cons c cs ih =>
    rw [feedReads]
    cases ho : onReadyRead pending c with
    | mk rest o =>
      cases o with
      | none => simp only []; exact Nat.le_succ_of_le (ih rest)
      | some buffer =>
        simp only [List.length_cons]
        exact Nat.succ_le_succ (ih rest)

/-- The arrays dispatched are a beginning of the frames sent, and the frames not
dispatched are still in the socket, whole and in order. -/
theorem feedReads_initial (reads : List Bytes) (pending : Bytes) (frames : List Bytes)
    (hsize : ∀ f ∈ frames, f.length < 2 ^ 32 - 1)
    (hcut : pending ++ reads.flatten = wireBytes frames) :
    ∃ k, (feedReads pending reads).1 = frames.take k ∧
      (feedReads pending reads).2 = wireBytes (frames.drop k) := by
  induction reads generalizing pending frames with
  | nil =>
    refine ⟨0, by simp [feedReads], ?_⟩
    simpa [feedReads] using hcut
  | cons c cs ih =>
    have hcut2 : (pending ++ c) ++ cs.flatten = wireBytes frames := by
      simpa [List.append_assoc] using hcut
    cases frames with
    | nil =>
      have hnil : pending ++ c = [] := by
        have : (pending ++ c) ++ cs.flatten = [] := by simpa [wireBytes] using hcut2
        exact (List.append_eq_nil.mp this).1
      obtain ⟨k, h1, h2⟩ := ih (pending ++ c) [] hsize hcut2
      refine ⟨k, ?_, ?_⟩
      · rw [feedReads, onReadyRead, hnil, readByteArray_nil]
        rw [hnil] at h1; exact h1
      · rw [feedReads, onReadyRead, hnil, readByteArray_nil]
        rw [hnil] at h2; exact h2
    | cons f fs =>
      have hf : f.length < 2 ^ 32 - 1 := hsize f (List.mem_cons_self _ _)
      rw [wireBytes_cons] at hcut2
      rcases append_cases _ _ _ _ hcut2 with ⟨b2, hb, hrest⟩ | ⟨z, hz, hb⟩
      · obtain ⟨k, h1, h2⟩ := ih b2 fs (fun g hg => hsize g (List.mem_cons_of_mem _ hg)) hrest
        refine ⟨k + 1, ?_, ?_⟩
        · rw [feedReads, onReadyRead, hb, readByteArray_complete f b2 hf]
          simp only [List.take_succ_cons, h1]
        · rw [feedReads, onReadyRead, hb, readByteArray_complete f b2 hf]
          simp only [List.drop_succ_cons, h2]
      · have hnone := readByteArray_incomplete f (pending ++ c) z hf hb hz
        have hcut3 : (pending ++ c) ++ cs.flatten = wireBytes (f :: fs) := by
          rw [wireBytes_cons]; exact hcut2
        obtain ⟨k, h1, h2⟩ := ih (pending ++ c) (f :: fs) hsize hcut3
        refine ⟨k, ?_, ?_⟩
        · rw [feedReads, onReadyRead, hnone]; exact h1
        · rw [feedReads, onReadyRead, hnone]; exact h2

theorem atMostOne_tail (e : Nat) (ends : List Nat) (pos : Nat) (reads : List Bytes)
    (h : AtMostOneEndPerRead (e :: ends) pos reads) : AtMostOneEndPerRead ends pos reads := by
  induction reads generalizing pos with
  | nil => trivial
  | cons c cs ih =>
    obtain ⟨h1, h2⟩ := h
    refine ⟨?_, ih _ h2⟩
    refine le_trans ?_ h1
    rw [List.filter_cons]
    split
    · exact Nat.le_succ _
    · exact le_refl _

theorem atMostOne_nil (pos : Nat) (reads : List Bytes) : AtMostOneEndPerRead [] pos reads := by
  induction reads generalizing pos with
  | nil => trivial
  | cons c cs ih => exact ⟨by simp, ih _⟩

/-- When no read holds the end of more than one frame and the socket holds no whole
frame to begin with, every frame is dispatched and the socket is left empty. -/
theorem feedReads_complete (reads : List Bytes) (pending : Bytes) (frames : List Bytes)
    (base : Nat) (hsize : ∀ f ∈ frames, f.length < 2 ^ 32 - 1)
    (hcut : pending ++ reads.flatten = wireBytes frames)
    (hpend : ∀ f fs, frames = f :: fs → pending.length < 4 + f.length)
    (hone : AtMostOneEndPerRead (frameEnds base frames) (base + pending.length) reads) :
    feedReads pending reads = (frames, []) := by
  induction reads generalizing pending frames base with
  | nil =>
    cases frames with
    | nil =>
      have : pending = [] := by simpa [wireBytes] using hcut
      rw [this, feedReads]
    | cons f fs =>
      have h1 := hpend f fs rfl
      have h2 : pending.length = (wireBytes (f :: fs)).length := by
        rw [← hcut]; simp
      rw [wireBytes_cons, List.length_append, length_writeByteArray] at h2
      omega
  | cons c cs ih =>
    have hcut2 : (pending ++ c) ++ cs.flatten = wireBytes frames := by
      simpa [List.append_assoc] using hcut
    obtain ⟨hfirst, hrest⟩ := hone
    cases frames with
    | nil =>
      have hnil : pending ++ c = [] := by
        have : (pending ++ c) ++ cs.flatten = [] := by simpa [wireBytes] using hcut2
        exact (List.append_eq_nil.mp this).1
      have := ih (pending ++ c) [] base hsize hcut2 (fun f fs h => by cases h)
        (atMostOne_nil _ _)
      rw [feedReads, onReadyRead, hnil, readByteArray_nil]
      rw [hnil] at this
      exact this
    | cons f fs =>
      have hf : f.length < 2 ^ 32 - 1 := hsize f (List.mem_cons_self _ _)
      have hp := hpend f fs rfl
      rw [wireBytes_cons] at hcut2
      rcases append_cases _ _ _ _ hcut2 with ⟨b2, hb, hrest2⟩ | ⟨z, hz, hb⟩
      · have hlen : pending.length + c.length = 4 + f.length + b2.length := by
          rw [← List.length_append, hb, List.length_append, length_writeByteArray]
        have hpos : base + pending.length + c.length = base + 4 + f.length + b2.length := by
          omega
        have hone2 : AtMostOneEndPerRead (frameEnds (base + 4 + f.length) fs)
            (base + 4 + f.length + b2.length) cs := by
          rw [← hpos]
          exact atMostOne_tail _ _ _ _ hrest
        have hpend2 : ∀ g gs, fs = g :: gs → b2.length < 4 + g.length := by
          intro g gs hg
          by_contra hcon
          subst hg
          have e1 : (decide (base + pending.length < base + 4 + f.length ∧
              base + 4 + f.length ≤ base + pending.length + c.length)) = true := by
            simp only [decide_eq_true_eq]; omega
          have e2 : (decide (base + pending.length < base + 4 + f.length + 4 + g.length ∧
              base + 4 + f.length + 4 + g.length ≤ base + pending.length + c.length)) = true := by
            simp only [decide_eq_true_eq]; omega
          simp only [frameEnds, List.filter_cons, e1, e2, if_true, List.length_cons] at hfirst
          omega
        have := ih b2 fs (base + 4 + f.length)
          (fun g hg => hsize g (List.mem_cons_of_mem _ hg)) hrest2 hpend2 hone2
        rw [feedReads, onReadyRead, hb, readByteArray_complete f b2 hf]
        simp only [this]
      · have hnone := readByteArray_incomplete f (pending ++ c) z hf hb hz
        have hzl : 0 < z.length := List.length_pos.mpr hz
        have hlen : pending.length + c.length + z.length = 4 + f.length := by
          rw [← List.length_append, ← List.length_append, ← hb, length_writeByteArray]
        have hcut3 : (pending ++ c) ++ cs.flatten = wireBytes (f :: fs) := by
          rw [wireBytes_cons]; exact hcut2
        have hone2 : AtMostOneEndPerRead (frameEnds base (f :: fs))
            (base + (pending ++ c).length) cs := by
          rw [List.length_append, ← Nat.add_assoc]
          exact hrest
        have := ih (pending ++ c) (f :: fs) base hsize hcut3
          (fun g gs hg => by
            cases hg
            rw [List.length_append]; omega) hone2
        rw [feedReads, onReadyRead, hnone]
        exact this

/-- The slot `Server::readSocket` after a read is the transaction `onReadyRead` describes,
followed by the dispatch of the array it delivers. -/
theorem readSocket_receive (st : Server) (socket : Nat) (read : Bytes) (dateTime : DateTime)
    (junk : Nat → Nat → Nat) :
    Server.readSocket (st.receive socket read) socket dateTime junk =
      match onReadyRead (st.pending socket) read with
      | (_, none) =>
        Except.ok ((st.receive socket read).emit Severity.info (Message.waitingForData socket))
      | (rest, some buffer) =>
        Server.dispatch { st with pending := fun s => if s = socket then rest else st.pending s }
          socket buffer dateTime junk := by
  have hp : (st.receive socket read).pending socket = st.pending socket ++ read := by
    simp [Server.receive]
  rw [Server.readSocket, onReadyRead, hp]
  cases readByteArray (st.pending socket ++ read) with
  | none => rfl
  | some r =>
    obtain ⟨buffer, rest⟩ := r
    simp only []
    congr 1
    simp only [Server.receive]
    congr 1
    funext s
    by_cases hs : s = socket
    · simp [hs]
    · simp [hs]

/-- A header string whose first field holds no `:` stops the slot at
`split(":")[1]`, whatever the server state. -/
theorem dispatch_no_flag_key (st : Server) (socket : Nat) (buffer : Bytes) (dateTime : DateTime)
    (junk : Nat → Nat → Nat)
    (h : 58 ∉ (headerOf buffer).takeWhile (fun c => c != 44)) :
    Server.dispatch st socket buffer dateTime junk = Except.error Fault.indexOutOfRange := by
  have hidx : index (split 58 ((headerOf buffer).takeWhile (fun c => c != 44))) 1 =
      (Except.error Fault.indexOutOfRange : Except Fault Bytes) := by
    rw [split, splitOn_of_not_mem 58 _ h]
    rfl
  simp only [Server.dispatch, decodeFlag, index_split_zero, bind, Except.bind, hidx]

/-- C7, amended: frames (each shorter than 2^32 - 1 bytes) are written on a
connection and the byte stream is cut into reads in any way; `readSocket` runs once
per read. Then at most one frame is dispatched per invocation; the frames dispatched
are a beginning of the original sequence, in order and without repetition, and the
frames not yet dispatched are still in the socket, whole and in order. When no read
holds the end of more than one frame, every frame is dispatched and the socket is
left empty. -/
theorem frame_reassembly (frames reads : List Bytes)
    (hsize : ∀ f ∈ frames, f.length < 2 ^ 32 - 1)
    (hcut : reads.flatten = wireBytes frames) :
    (∃ k, (feedReads [] reads).1 = frames.take k ∧
      (feedReads [] reads).2 = wireBytes (frames.drop k)) ∧
    (feedReads [] reads).1.length ≤ reads.length ∧
    (AtMostOneEndPerRead (frameEnds 0 frames) 0 reads → feedReads [] reads = (frames, [])) := by
  refine ⟨feedReads_initial reads [] frames hsize (by simpa using hcut),
    feedReads_length [] reads, ?_⟩
  intro hone
  exact feedReads_complete reads [] frames 0 hsize (by simpa using hcut)
    (fun f fs _ => by simp) (by simpa using hone)

/-- Witness of `frame_reassembly`: two frames in three reads, the second read holding
the end of the first frame and the beginning of the second. -/
theorem frame_reassembly_witness :
    feedReads [] [[0, 0, 0, 2, 7], [8, 0, 0, 0], [1, 9]] = ([[7, 8], [9]], []) :=
  (frame_reassembly [[7, 8], [9]] [[0, 0, 0, 2, 7], [8, 0, 0, 0], [1, 9]]
    (by decide) (by decide)).2.2 ⟨by decide, by decide, by decide, trivial⟩

/-- C7 as stated fails: two frames that arrive in one read. `readSocket` dispatches
the first; the second stays in the socket, not dispatched. -/
theorem frame_reassembly_counterexample :
    [[0, 0, 0, 2, 7, 8, 0, 0, 0, 1, 9]].flatten = wireBytes [[7, 8], [9]] ∧
    feedReads [] [[0, 0, 0, 2, 7, 8, 0, 0, 0, 1, 9]] = ([[7, 8]], [0, 0, 0, 1, 9]) ∧
    (feedReads [] [[0, 0, 0, 2, 7, 8, 0, 0, 0, 1, 9]]).1 ≠ [[7, 8], [9]] := by
  decide

/-! ## The client's download and malformed headers -/

set_option maxRecDepth 100000 in
/-- C8, the code at the failing inputs. A Load envelope for the empty file `e.txt`
(declared size 0, empty payload): the loop of `loadFiles` is not entered and no file is
written. A Load envelope declaring 4 bytes with the payload `abc`: the file written has
4 bytes, the payload and the NUL behind it. One declaring 9 bytes with the payload
`abc`: the write reads beyond the array. For comparison, the declared size 3 with the
payload `abc` writes `abc`. -/
theorem client_download_write_at_failing_inputs :
    (Client.dispatch exampleClient
        (buildHeader (ascii "load") (ascii "e.txt") 0 (fun _ => 0))).map
      (fun st => st.content (ascii "/home/u/Documents/e.txt")) = Except.ok none ∧
    (Client.dispatch exampleClient
        (buildHeader (ascii "load") (ascii "a.txt") 4 (fun _ => 0) ++ ascii "abc")).map
      (fun st => st.content (ascii "/home/u/Documents/a.txt")) =
        Except.ok (some (ascii "abc" ++ [0])) ∧
    (Client.dispatch exampleClient
        (buildHeader (ascii "load") (ascii "a.txt") 9 (fun _ => 0) ++ ascii "abc")).map
      (fun st => st.content (ascii "/home/u/Documents/a.txt")) =
        Except.error Fault.readPastArray ∧
    (Client.dispatch exampleClient
        (buildHeader (ascii "load") (ascii "a.txt") 3 (fun _ => 0) ++ ascii "abc")).map
      (fun st => st.content (ascii "/home/u/Documents/a.txt")) =
        Except.ok (some (ascii "abc")) := by
  decide

set_option maxRecDepth 100000 in
/-- C10, the code at the failing inputs. A frame body that is empty, and one that
holds `hello` (no `:` in the first field): `split(":")[1]` is outside the list, the
slot does not reach the warning. For comparison, a header with the unknown flag `zap`
gets the warning and changes nothing else. -/
theorem malformed_header_at_failing_inputs :
    (Server.dispatch exampleServer 1 [] exampleTime (fun _ _ => 0)).map
      (fun st => st.log) = Except.error Fault.indexOutOfRange ∧
    (Server.dispatch exampleServer 1 (ascii "hello") exampleTime (fun _ _ => 0)).map
      (fun st => st.log) = Except.error Fault.indexOutOfRange ∧
    (Server.dispatch exampleServer 1
        (resize (ascii "flag:zap,fileName:null,fileSize:null;") 128 (fun _ => 0)) exampleTime
        (fun _ _ => 0)).map (fun st => (st.log, st.sent)) =
      Except.ok ([(Severity.warning, Message.wrongFlag (ascii "zap"))],
        ([] : List (Nat × Bytes))) := by
  decide

/-! ## The receive loop -/

theorem loadLoop_nil (fuel : Nat) (st : Client) (header : Bytes) :
    Client.loadLoop fuel st header [] = Except.ok st := by
  cases fuel <;> rfl

/-- The loop of `loadFiles` on a buffer that is not empty: one pass through its body,
then the loop again. -/
theorem loadLoop_succ (fuel : Nat) (st : Client) (header : Bytes) (c : Nat) (cs : Bytes) :
    Client.loadLoop (fuel + 1) st header (c :: cs) =
      (Client.loadStep st header (c :: cs)).bind
        (fun r => Client.loadLoop fuel r.1 r.2.1 r.2.2) := by
  simp only [Client.loadLoop, Client.loadStep, bind, Except.bind, pure, Except.pure]
  cases decodeFileName header with
  | error e => rfl
  | ok fileName =>
    cases decodeSize header with
    | error e => rfl
    | ok size =>
      simp only []
      split
      · cases writeData (c :: cs) (toInt size) with
        | error e => simp only []
        | ok data => simp only []
      · simp only []

theorem length_midFrom_le (b : Bytes) (pos : Int) : (midFrom b pos).length ≤ b.length := by
  simp only [midFrom, mid]
  split
  · simp
  · split
    · simp
    · simp

theorem length_midFrom_header (b : Bytes) : (midFrom b 128).length ≤ b.length - 128 := by
  simp only [midFrom, mid]
  split
  · simp
  · rename_i h
    have h2 : ¬ ((128 : Int) < 0) := by decide
    simp only [h2, if_false, Int.reduceNeg, Int.reduceLT, true_or, if_true, List.length_drop]
    omega

theorem index_error {α : Type} (l : List α) (i : Nat) (e : Fault)
    (h : index l i = Except.error e) : e = Fault.indexOutOfRange := by
  unfold index at h
  split at h
  · cases h
  · cases h; rfl

theorem decodeFileName_error (header : Bytes) (e : Fault)
    (h : decodeFileName header = Except.error e) : e = Fault.indexOutOfRange := by
  simp only [decodeFileName, bind, Except.bind] at h
  cases h1 : index (split 44 header) 1 with
  | error e1 =>
    rw [h1] at h
    cases h
    exact index_error _ _ _ h1
  | ok field =>
    rw [h1] at h
    exact index_error _ _ _ h

theorem decodeSize_error (header : Bytes) (e : Fault)
    (h : decodeSize header = Except.error e) : e = Fault.indexOutOfRange := by
  simp only [decodeSize, bind, Except.bind] at h
  cases h1 : index (split 44 header) 2 with
  | error e1 =>
    rw [h1] at h
    cases h
    exact index_error _ _ _ h1
  | ok field =>
    rw [h1] at h
    simp only [] at h
    cases h2 : index (split 58 field) 1 with
    | error e2 =>
      rw [h2] at h
      cases h
      exact index_error _ _ _ h2
    | ok value =>
      rw [h2] at h
      exact index_error _ _ _ h

theorem writeData_error (buffer : Bytes) (maxSize : Int) (e : Fault)
    (h : writeData buffer maxSize = Except.error e) : e = Fault.readPastArray := by
  unfold writeData at h
  split at h
  · cases h
  · split at h
    · cases h
    · split at h
      · cases h
      · cases h; rfl

/-- One pass through the body of the loop either stops the slot with a fault of the
code, or goes on with the buffer cut by the declared size and then by 128 header
bytes. -/
theorem loadStep_cases (st : Client) (header buffer : Bytes) :
    (∃ e, Client.loadStep st header buffer = Except.error e ∧ e ≠ Fault.outOfFuel) ∨
    (∃ st' size, Client.loadStep st header buffer =
      Except.ok (st', fromUtf8 (mid (midFrom buffer (toInt size)) 0 128),
        midFrom (midFrom buffer (toInt size)) 128)) := by
  simp only [Client.loadStep, bind, Except.bind, pure, Except.pure]
  cases h1 : decodeFileName header with
  | error e =>
    left
    refine ⟨e, rfl, ?_⟩
    rw [decodeFileName_error header e h1]
    decide
  | ok fileName =>
    cases h2 : decodeSize header with
    | error e =>
      left
      refine ⟨e, rfl, ?_⟩
      rw [decodeSize_error header e h2]
      decide
    | ok size =>
      simp only []
      split
      · cases h3 : writeData buffer (toInt size) with
        | error e =>
          left
          refine ⟨e, rfl, ?_⟩
          rw [writeData_error buffer _ e h3]
          decide
        | ok data => exact Or.inr ⟨_, size, rfl⟩
      · exact Or.inr ⟨_, size, rfl⟩

theorem length_next_buffer (buffer : Bytes) (s : Int) :
    (midFrom (midFrom buffer s) 128).length ≤ buffer.length - 128 := by
  have h1 := length_midFrom_header (midFrom buffer s)
  have h2 := length_midFrom_le buffer s
  omega

/-- With fuel for one iteration per 128 bytes of the buffer, rounded up, the loop
never uses the fuel up, and more fuel changes nothing. -/
theorem loadLoop_fuel (fuel : Nat) (st : Client) (header buffer : Bytes)
    (h : (buffer.length + 127) / 128 ≤ fuel) :
    Client.loadLoop (fuel + 1) st header buffer = Client.loadLoop fuel st header buffer ∧
    Client.loadLoop fuel st header buffer ≠ Except.error Fault.outOfFuel := by
  induction fuel generalizing st header buffer with
  | zero =>
    have hb : buffer = [] := by
      cases buffer with
      | nil => rfl
      | cons c cs => simp only [List.length_cons] at h; omega
    subst hb
    rw [loadLoop_nil, loadLoop_nil]
    exact ⟨rfl, by simp⟩
  | succ f ih =>
    cases buffer with
    | nil =>
      rw [loadLoop_nil, loadLoop_nil]
      exact ⟨rfl, by simp⟩
    | cons c cs =>
      rw [loadLoop_succ, loadLoop_succ]
      rcases loadStep_cases st header (c :: cs) with ⟨e, he, hne⟩ | ⟨st', size, hs⟩
      · rw [he]
        refine ⟨rfl, ?_⟩
        simp only [Except.bind]
        intro hcon
        cases hcon
        exact hne rfl
      · rw [hs]
        simp only [Except.bind]
        have hlen := length_next_buffer (c :: cs) (toInt size)
        apply ih
        simp only [List.length_cons] at h hlen ⊢
        omega

theorem loadLoop_more_fuel (k fuel : Nat) (st : Client) (header buffer : Bytes)
    (h : (buffer.length + 127) / 128 ≤ fuel) :
    Client.loadLoop (fuel + k) st header buffer = Client.loadLoop fuel st header buffer := by
  induction k with
  | zero => rfl
  | succ k ih =>
    rw [← Nat.add_assoc, (loadLoop_fuel (fuel + k) st header buffer (by omega)).1, ih]

/-- C15: the loop of `loadFiles`, for every client state, header and buffer. One pass
through its body either stops the slot with a fault of the code or leaves a buffer at
least 128 bytes shorter (empty, when it had no more than 128), so strictly shorter
when the buffer was not empty, whatever size the header declares. On a buffer that is
not empty the loop is one pass through the body and then the loop again. Hence the
number of bytes divided by 128, rounded up, is enough fuel: the loop never uses it
up, more fuel changes nothing, and `loadFiles`, which passes the length of the buffer
as fuel, always comes to an end. -/
theorem loadFiles_terminates (st : Client) (header buffer : Bytes) :
    (∀ st' header' buffer', Client.loadStep st header buffer =
        Except.ok (st', header', buffer') →
      buffer'.length ≤ buffer.length - 128 ∧
      (buffer ≠ [] → buffer'.length < buffer.length)) ∧
    (∀ fuel c cs, buffer = c :: cs →
      Client.loadLoop (fuel + 1) st header buffer =
        (Client.loadStep st header buffer).bind
          (fun r => Client.loadLoop fuel r.1 r.2.1 r.2.2)) ∧
    (∀ fuel, (buffer.length + 127) / 128 ≤ fuel →
      Client.loadLoop fuel st header buffer =
        Client.loadLoop ((buffer.length + 127) / 128) st header buffer) ∧
    Client.loadLoop ((buffer.length + 127) / 128) st header buffer ≠
      Except.error Fault.outOfFuel ∧
    Client.loadFiles st header buffer ≠ Except.error Fault.outOfFuel := by
  refine ⟨?_, ?_, ?_, ?_, ?_⟩
  · intro st' header' buffer' hstep
    have hle : buffer'.length ≤ buffer.length - 128 := by
      rcases loadStep_cases st header buffer with ⟨e, he, -⟩ | ⟨st2, size, hs⟩
      · rw [he] at hstep; cases hstep
      · rw [hs] at hstep
        simp only [Except.ok.injEq, Prod.mk.injEq] at hstep
        rw [← hstep.2.2]
        exact length_next_buffer buffer (toInt size)
    refine ⟨hle, fun hne => ?_⟩
    have hpos : 0 < buffer.length := List.length_pos.mpr hne
    omega
  · intro fuel c cs hb
    subst hb
    exact loadLoop_succ fuel st header c cs
  · intro fuel hf
    obtain ⟨k, rfl⟩ : ∃ k, fuel = (buffer.length + 127) / 128 + k :=
      ⟨fuel - (buffer.length + 127) / 128, by omega⟩
    exact loadLoop_more_fuel k _ st header buffer (le_refl _)
  · exact (loadLoop_fuel _ st header buffer (le_refl _)).2
  · simp only [Client.loadFiles, bind, Except.bind]
    cases h1 : decodeFlag header with
    | error e =>
      intro hcon
      simp only [Except.error.injEq] at hcon
      simp only [decodeFlag, bind, Except.bind] at h1
      cases h2 : index (split 44 header) 0 with
      | error e2 =>
        rw [h2] at h1
        cases h1
        have := index_error _ _ _ h2
        rw [this] at hcon
        cases hcon
      | ok field =>
        rw [h2] at h1
        have := index_error _ _ _ h1
        rw [this] at hcon
        cases hcon
    | ok flag =>
      simp only []
      split
      · exact (loadLoop_fuel buffer.length st header buffer (by omega)).2
      · simp [pure, Except.pure]

set_option maxRecDepth 100000 in
/-- Witness of `loadFiles_terminates`: the header of `a.txt` declaring 3 bytes and the
buffer `abc`. One pass empties the buffer, one unit of fuel is enough, and five units
give the same result. -/
theorem loadFiles_terminates_witness :
    (ascii "abc").length = 3 ∧
    Client.loadLoop 5 exampleClient
        (fromUtf8 (buildHeader (ascii "load") (ascii "a.txt") 3 (fun _ => 0))) (ascii "abc") =
      Client.loadLoop 1 exampleClient
        (fromUtf8 (buildHeader (ascii "load") (ascii "a.txt") 3 (fun _ => 0))) (ascii "abc") ∧
    Client.loadFiles exampleClient
        (fromUtf8 (buildHeader (ascii "load") (ascii "a.txt") 3 (fun _ => 0))) (ascii "abc") ≠
      Except.error Fault.outOfFuel :=
  ⟨by decide,
    (loadFiles_terminates exampleClient
      (fromUtf8 (buildHeader (ascii "load") (ascii "a.txt") 3 (fun _ => 0)))
      (ascii "abc")).2.2.1 5 (by decide),
    (loadFiles_terminates exampleClient
      (fromUtf8 (buildHeader (ascii "load") (ascii "a.txt") 3 (fun _ => 0)))
      (ascii "abc")).2.2.2.2⟩
